import Mathlib

/-!
# E20 cache simulator (`simcache.cpp`): embedding and verified properties

The definitions below transcribe the data structures and the body of `main`
of `simcache.cpp`.  Machine integers are natural numbers; a value stored into
a `uint16_t` goes through `u16`, which is the conversion of the promoted `int`
result back to 16 bits.  A `std::vector` is a `List`.

The scan of a row is the `for` loop of the source written as a recursion over
the blocks of the row, the index `i` being carried along.  The source keeps
`i` in a `uint16_t`: the recursion is the loop for every row shorter than
65535 blocks.  The sizes of a level (`int` in the source) are natural numbers;
the source divides by `block_size` and by the number of rows, so a level is
meant with `block_size >= 1` and at least one row.  In the configuration the
product `blocksize * assoc` is the 32-bit product of two `int` and the division
truncates towards zero; a divisor 0 kills the program before it has written
anything, and no cache is built.  `main` is the function
`main` from the point where the image has been loaded: its arguments are the
fields of the cache configuration, the image and a bound on the number of
iterations of the loop.
-/

namespace Simcache

/-- Number of memory cells, `MEM_SIZE = 1<<13`. -/
def MEM_SIZE : Nat := 8192

/-- The initial value of `curr_LRU`. -/
def UINT64_MAX : Nat := 18446744073709551615

/-- Conversion of a promoted `int` value to `uint16_t`. -/
def u16 (x : Int) : Nat := (x % 65536).toNat

/-- A block: the clock cycle of its last access and its tag. -/
structure block where
  clock_cycle_stamp : Nat
  tag : Nat
deriving DecidableEq

/-- A row: a vector of blocks. -/
structure row where
  My_blocks : List block
deriving DecidableEq

/-- A cache level. -/
structure level where
  cache_size : Nat
  associativity : Nat
  block_size : Nat
  My_rows : List row
deriving DecidableEq

/-- A cache: a vector of levels. -/
structure cache where
  My_levels : List level
deriving DecidableEq

/-- The kind of a cache event. -/
inductive status where
  | HIT
  | MISS
  | SW
deriving DecidableEq

/-- One line written by `print_log_entry`; `cache_name = k` stands for the
name `"L" + to_string(k)`. -/
structure log_entry where
  cache_name : Nat
  status : status
  pc : Nat
  addr : Nat
  row : Nat
deriving DecidableEq

/-- What the `for` loop over a row leaves behind: the blocks of the row, whether
a block with the tag was met, and the index `LRU`. -/
structure scan_result where
  My_blocks : List block
  block_found : Bool
  LRU : Nat
deriving DecidableEq

/-- The `for` loop over the blocks of a row (lines 445-467 and 531-552): at
index `i` the minimum stamp `curr_LRU` and its index `LRU` are updated first,
then the tag is compared; on a match the stamp of the block becomes
`clock_cycle` and the loop ends. -/
def scan (tag clock_cycle : Nat) : List block → Nat → Nat → Nat → scan_result
  | [], _, _, LRU => ⟨[], false, LRU⟩
  | b :: bs, i, curr_LRU, LRU =>
    let curr_LRU1 := if b.clock_cycle_stamp < curr_LRU then b.clock_cycle_stamp else curr_LRU
    let LRU1 := if b.clock_cycle_stamp < curr_LRU then i else LRU
    if b.tag = tag then
      ⟨{ b with clock_cycle_stamp := clock_cycle } :: bs, true, LRU1⟩
    else
      let r := scan tag clock_cycle bs (i + 1) curr_LRU1 LRU1
      ⟨b :: r.My_blocks, r.block_found, r.LRU⟩

/-- The miss branch (lines 476-483 and 562-569): erase the block at `LRU` when the
row holds `associativity` blocks, then push the new block. -/
def allocate (associativity tag clock_cycle : Nat) (r : scan_result) : List block :=
  (if r.My_blocks.length = associativity then r.My_blocks.eraseIdx r.LRU
   else r.My_blocks) ++ [⟨clock_cycle, tag⟩]

/-- The value of `blockID` at a level (lines 438, 524); `sum` is `*regA + imm`.
The source divides by `block_size`: the value is that of the source when
`block_size` is positive. -/
def blockID (l : level) (sum : Nat) : Nat := (sum % MEM_SIZE) / l.block_size

/-- The value of `row` at a level (lines 439, 525).  The source divides by the
number of rows: the value is that of the source when the level has a row; for a
level without rows the source is killed by the division. -/
def row_index (l : level) (sum : Nat) : Nat := blockID l sum % l.My_rows.length

/-- The value of `tag` at a level (lines 440, 526); as for `row_index`, the value
is that of the source when the level has a row. -/
def tag_of (l : level) (sum : Nat) : Nat := blockID l sum / l.My_rows.length

/-- The blocks `My_rows[row].My_blocks` of a level. -/
def blocks_at (l : level) (row : Nat) : List block := (l.My_rows.getD row ⟨[]⟩).My_blocks

/-- The level after `My_rows[row].My_blocks` has become `bs`. -/
def set_blocks (l : level) (row : Nat) (bs : List block) : level :=
  { l with My_rows := l.My_rows.set row ⟨bs⟩ }

/-- The `while` loop of the `lw` branch (lines 434-494), from level `curr_level`
on; `sum` is `*regA + imm` as read inside the loop. -/
def lw_walk (pc sum clock_cycle : Nat) : List level → Nat → List level × List log_entry
  | [], _ => ([], [])
  | l :: ls, curr_level =>
    let row := row_index l sum
    let tag := tag_of l sum
    let r := scan tag clock_cycle (blocks_at l row) 0 UINT64_MAX 0
    if r.block_found then
      (set_blocks l row r.My_blocks :: ls,
        [⟨curr_level + 1, status.HIT, pc, sum % MEM_SIZE, row⟩])
    else
      let rest := lw_walk pc sum clock_cycle ls (curr_level + 1)
      (set_blocks l row (allocate l.associativity tag clock_cycle r) :: rest.1,
        ⟨curr_level + 1, status.MISS, pc, sum % MEM_SIZE, row⟩ :: rest.2)

/-- The `while` loop of the `sw` branch (lines 520-574), from level `curr_level`
on.  `block_found` is the variable declared at line 507, before the loop: it is
passed from one level to the next. -/
def sw_walk (pc sum clock_cycle : Nat) : List level → Nat → Bool → List level × List log_entry
  | [], _, _ => ([], [])
  | l :: ls, curr_level, block_found =>
    let row := row_index l sum
    let tag := tag_of l sum
    let r := scan tag clock_cycle (blocks_at l row) 0 UINT64_MAX 0
    let block_found1 := block_found || r.block_found
    let blocks := if block_found1 then r.My_blocks
                  else allocate l.associativity tag clock_cycle r
    let rest := sw_walk pc sum clock_cycle ls (curr_level + 1) block_found1
    (set_blocks l row blocks :: rest.1,
      ⟨curr_level + 1, status.SW, pc, sum % MEM_SIZE, row⟩ :: rest.2)

/-- The read probe: the cache walk of a `lw`. -/
def read_probe (c : cache) (pc sum clock_cycle : Nat) : cache × List log_entry :=
  let r := lw_walk pc sum clock_cycle c.My_levels 0
  (⟨r.1⟩, r.2)

/-- The write probe: the cache walk of a `sw`. -/
def write_probe (c : cache) (pc sum clock_cycle : Nat) : cache × List log_entry :=
  let r := sw_walk pc sum clock_cycle c.My_levels 0 false
  (⟨r.1⟩, r.2)

/-- The processor and cache state of `main`. -/
structure machine where
  memory : Nat → Nat
  pc : Nat
  regs : Nat → Nat
  clock_cycle : Nat
  My_cache : cache
  halt_checker : Bool

/-- Assignment to one cell of an array. -/
def store (a : Nat → Nat) (i v : Nat) : Nat → Nat := fun j => if j = i then v else a j

/-- The index of `regA`: bits 12-10 of the instruction word (lines 319, 394). -/
def regA_index (w : Nat) : Nat := (w &&& 0b0001110000000000) >>> 10

/-- The index of `regB`: bits 9-7 of the instruction word (lines 320, 395). -/
def regB_index (w : Nat) : Nat := (w &&& 0b0000001110000000) >>> 7

/-- The index of `regDst`: bits 6-4 of the instruction word (line 321). -/
def regDst_index (w : Nat) : Nat := (w &&& 0b0000000001110000) >>> 4

/-- The 13-bit immediate of `j` and `jal` (lines 373, 384). -/
def imm13 (w : Nat) : Nat := w &&& 0b0001111111111111

/-- The immediate of a two-register instruction (lines 396-402): the low seven
bits, with bits 7-15 set when bit 6 is set. -/
def imm7 (w : Nat) : Nat :=
  let imm := w &&& 0b0000000001111111
  if imm &&& 0b1000000 = 0b1000000 then imm ^^^ 0b1111111110000000 else imm

/-- The body of the `while(!halt_checker)` loop up to line 592: one instruction,
without the clock increment and the reset of register 0. -/
def exec_instr (s : machine) : machine × List log_entry :=
  let w := s.memory (s.pc % MEM_SIZE)
  let opcode := w >>> 13
  let LSB_4 := w &&& 0b1111
  if opcode = 0b000 then
    let regA := regA_index w
    let regB := regB_index w
    let regDst := regDst_index w
    let a := s.regs regA
    let b := s.regs regB
    let s1 : machine :=
      if LSB_4 = 0b0000 then { s with regs := store s.regs regDst (u16 ((a : Int) + b)) }
      else if LSB_4 = 0b0001 then { s with regs := store s.regs regDst (u16 ((a : Int) - b)) }
      else if LSB_4 = 0b0010 then { s with regs := store s.regs regDst (a ||| b) }
      else if LSB_4 = 0b0011 then { s with regs := store s.regs regDst (a &&& b) }
      else if LSB_4 = 0b0100 then { s with regs := store s.regs regDst (if a < b then 1 else 0) }
      else if LSB_4 = 0b1000 ∧ w &&& 0b0000001111110000 = 0 then
        { s with pc := u16 ((a : Int) - 1) }
      else s
    ({ s1 with pc := u16 ((s1.pc : Int) + 1) }, [])
  else if opcode &&& 0b110 = 0b010 then
    if opcode = 0b010 then
      let last_pc := s.pc
      let pc := imm13 w
      ({ s with pc := pc, halt_checker := if last_pc = pc then true else s.halt_checker }, [])
    else if opcode = 0b011 then
      ({ s with regs := store s.regs 7 (u16 ((s.pc : Int) + 1)), pc := imm13 w }, [])
    else (s, [])
  else
    let regA := regA_index w
    let regB := regB_index w
    let imm := imm7 w
    let r : machine × List log_entry :=
      if opcode = 0b111 then
        ({ s with regs := store s.regs regB (if s.regs regA < imm then 1 else 0) }, [])
      else if opcode = 0b100 then
        let regs1 := store s.regs regB (s.memory ((s.regs regA + imm) % MEM_SIZE))
        let p := read_probe s.My_cache s.pc (regs1 regA + imm) s.clock_cycle
        ({ s with regs := regs1, My_cache := p.1 }, p.2)
      else if opcode = 0b101 then
        let memory1 := store s.memory ((s.regs regA + imm) % MEM_SIZE) (s.regs regB)
        let p := write_probe s.My_cache s.pc (s.regs regA + imm) s.clock_cycle
        ({ s with memory := memory1, My_cache := p.1 }, p.2)
      else if opcode = 0b110 then
        (if s.regs regA = s.regs regB then { s with pc := u16 ((imm : Int) + s.pc) } else s, [])
      else if opcode = 0b001 then
        ({ s with regs := store s.regs regB (u16 ((s.regs regA : Int) + imm)) }, [])
      else (s, [])
    ({ r.1 with pc := u16 ((r.1.pc : Int) + 1) }, r.2)

/-- One iteration of the `while(!halt_checker)` loop (lines 306-599): the
instruction, then `clock_cycle++` and `regs[0] = 0`. -/
def step (s : machine) : machine × List log_entry :=
  let r := exec_instr s
  ({ r.1 with clock_cycle := u16 ((r.1.clock_cycle : Int) + 1), regs := store r.1.regs 0 0 }, r.2)

/-- The processor state before the loop: `pc`, the registers and the clock are
zero, the memory holds the program image. -/
def init (image : Nat → Nat) (c : cache) : machine :=
  ⟨image, 0, fun _ => 0, 0, c, false⟩

/-- At most `n` iterations of the `while(!halt_checker)` loop, with the log
lines they write. -/
def driver : Nat → machine → machine × List log_entry
  | 0, s => (s, [])
  | n + 1, s =>
    if s.halt_checker then (s, [])
    else
      let r := step s
      let t := driver n r.1
      (t.1, r.2 ++ t.2)

/-- One line written by `print_cache_config`; `cache_name = k` stands for the
name `"L" + to_string(k)`. -/
structure config_line where
  cache_name : Nat
  size : Nat
  assoc : Nat
  blocksize : Nat
  num_rows : Nat
deriving DecidableEq

/-- The value of an `int` product: the 32-bit two's-complement value that the
multiplication leaves when it overflows. -/
def int32 (x : Int) : Int := (x + 2147483648) % 4294967296 - 2147483648

/-- The divisor `L1blocksize * L1assoc` of lines 225, 251 and 268, a product of
two `int`. -/
def row_divisor (assoc blocksize : Nat) : Int := int32 ((blocksize : Int) * (assoc : Int))

/-- The variable `uint16_t num_of_rows` (lines 225, 251, 268): the quotient of the
`int` division, which truncates towards zero, converted to 16 bits.  The fields of
a configuration are the non-negative values of `int` fields.  The division by a
divisor 0, which kills the program, is accounted for in `build_cache`. -/
def num_of_rows (size assoc blocksize : Nat) : Nat :=
  u16 (Int.tdiv (size : Int) (row_divisor assoc blocksize))

/-- A level as `main` creates it (lines 228-239): the three fields of the
configuration and `num_of_rows` empty rows. -/
def new_level (size assoc blocksize : Nat) : level :=
  ⟨size, assoc, blocksize, List.replicate (num_of_rows size assoc blocksize) ⟨[]⟩⟩

/-- The cache built from the fields `parts` of the configuration (lines 218-288):
one level for three fields, two levels for six.  The result is `none` when no
cache is built: for any other number of fields (the branch
`Invalid cache config`), and when a divisor `blocksize * assoc` is 0, where the
division of line 225, 251 or 268 kills the program. -/
def build_cache : List Nat → Option cache
  | [L1size, L1assoc, L1blocksize] =>
    if row_divisor L1assoc L1blocksize = 0 then none
    else some ⟨[new_level L1size L1assoc L1blocksize]⟩
  | [L1size, L1assoc, L1blocksize, L2size, L2assoc, L2blocksize] =>
    if row_divisor L1assoc L1blocksize = 0 ∨ row_divisor L2assoc L2blocksize = 0 then none
    else some ⟨[new_level L1size L1assoc L1blocksize, new_level L2size L2assoc L2blocksize]⟩
  | _ => none

/-- The lines of the loop over `print_cache_config` (lines 291-294). -/
def report (c : cache) : List config_line :=
  (c.My_levels.enumFrom 1).map
    (fun p => ⟨p.1, p.2.cache_size, p.2.associativity, p.2.block_size, p.2.My_rows.length⟩)

/-- What a run of `main` leaves: the exit code once `main` has returned (`none`
when it has not: the loop has not ended yet, or the program was killed), the
configuration lines, the processor and cache state, and the log lines. -/
structure outcome where
  exit_code : Option Nat
  config : List config_line
  final : machine
  log : List log_entry

/-- The function `main` after the image has been loaded (lines 200-604), the
`while` loop being run for at most `n` iterations.  `cache_config` is `none` when
the string `cache_config` is empty, and the list of its fields otherwise.  With no
configuration the branch of line 207 is skipped and `main` returns 0; with a
number of fields other than 3 or 6 it returns 1; with 3 or 6 fields and a divisor
0 it is killed before it has written anything; otherwise it reports the levels
and runs the loop, and returns 0 when the loop has ended.  The loop follows the
source for levels that have a row: for a level built without rows the source is
killed by the division of line 439 or 525 at the first `lw` or `sw`. -/
def main (cache_config : Option (List Nat)) (image : Nat → Nat) (n : Nat) : outcome :=
  match cache_config with
  | none => ⟨some 0, [], init image ⟨[]⟩, []⟩
  | some parts =>
    if parts.length = 3 ∨ parts.length = 6 then
      match build_cache parts with
      | none => ⟨none, [], init image ⟨[]⟩, []⟩
      | some c =>
        let r := driver n (init image c)
        ⟨if r.1.halt_checker then some 0 else none, report c, r.1, r.2⟩
    else ⟨some 1, [], init image ⟨[]⟩, []⟩

/-- A two-level hierarchy as built for the configuration `2,2,1,1,1,1`: level 1
has one row of associativity 2, level 2 one row of associativity 1, blocks of
one cell. -/
def store_cache : cache := ⟨[⟨2, 2, 1, [⟨[]⟩]⟩, ⟨1, 1, 1, [⟨[]⟩]⟩]⟩

/-- The program `lw $1,10($0); lw $1,11($0); sw $1,10($0); j 3`. -/
def store_image : Nat → Nat := fun a =>
  if a = 0 then 0b1000000010001010
  else if a = 1 then 0b1000000010001011
  else if a = 2 then 0b1010000010001010
  else if a = 3 then 0b0100000000000011
  else 0

/-- A one-level hierarchy as built for the configuration `4,1,1`: four rows of
associativity 1, blocks of one cell. -/
def alias_cache : cache := ⟨[⟨4, 1, 1, [⟨[]⟩, ⟨[]⟩, ⟨[]⟩, ⟨[]⟩]⟩]⟩

/-- The program `addi $1,$0,5; lw $1,0($1)` with the word 100 at address 5. -/
def alias_image : Nat → Nat := fun a =>
  if a = 0 then 0b0010000010000101
  else if a = 1 then 0b1000010010000000
  else if a = 5 then 100
  else 0

/-- The program `lw $0,5($0)` with the word 100 at address 5. -/
def alias_image0 : Nat → Nat := fun a =>
  if a = 0 then 0b1000000000000101
  else if a = 5 then 100
  else 0

/-- One cache access: a read probe or a write probe, with the pc, the sum
`*regA + imm` and the clock it is issued with. -/
inductive access where
  | lw (pc sum clock_cycle : Nat)
  | sw (pc sum clock_cycle : Nat)
deriving DecidableEq

/-- The cache after one access. -/
def probe (c : cache) : access → cache
  | access.lw pc sum clock_cycle => (read_probe c pc sum clock_cycle).1
  | access.sw pc sum clock_cycle => (write_probe c pc sum clock_cycle).1

/-- The cache after a sequence of accesses. -/
def probes (c : cache) (accesses : List access) : cache := accesses.foldl probe c

/-- The access of one of the two kinds: a write probe when `write` is set, a
read probe otherwise. -/
def access_kind (write : Bool) (pc sum clock_cycle : Nat) : access :=
  if write then access.sw pc sum clock_cycle else access.lw pc sum clock_cycle

/-- The capacity condition on a level: the associativity is at least 1 and no
row holds more blocks than the associativity. -/
def capped (l : level) : Prop :=
  1 ≤ l.associativity ∧ ∀ r ∈ l.My_rows, r.My_blocks.length ≤ l.associativity

/-- A level-1 state with one full row of associativity 2, holding the tags 10
and 11. -/
def hit_level1 : level := ⟨2, 2, 1, [⟨[⟨0, 10⟩, ⟨1, 11⟩]⟩]⟩

/-- A level-2 state with one full row of associativity 1, holding the tag 11. -/
def hit_level2 : level := ⟨1, 1, 1, [⟨[⟨1, 11⟩]⟩]⟩

/-- The state before the `sw` of `store_image`: pc 2, clock 2, level 1 holding
the tags 10 and 11 and level 2 the tag 11. -/
def store_state : machine := ⟨store_image, 2, fun _ => 0, 2, ⟨[hit_level1, hit_level2]⟩, false⟩

/-- A memory image holding `sw $1,3($2)` at address 0. -/
def sw_image : Nat → Nat := fun a => if a = 0 then 0b1010100010000011 else 0

/-- The registers of `sw_state`: register 1 holds 7 and register 2 holds 20. -/
def sw_regs : Nat → Nat := fun i => if i = 1 then 7 else if i = 2 then 20 else 0

/-- A state about to execute the `sw $1,3($2)` of `sw_image`: the store writes the 7
of register 1 to the cell 23, which holds 0. -/
def sw_state : machine := ⟨sw_image, 0, sw_regs, 0, ⟨[hit_level1, hit_level2]⟩, false⟩

/-- The address of the `n`-th access of the alternation `a, b, a, b, ...`. -/
def alternation (a b n : Nat) : Nat := if n % 2 = 0 then a else b

/-- The one-level cache after the first `n` read probes of the alternation, the
`n`-th probe being issued with the pc `pc n` and the clock `clock_cycle n`. -/
def alternating_cache (l : level) (a b : Nat) (pc clock_cycle : Nat → Nat) : Nat → cache
  | 0 => ⟨[l]⟩
  | n + 1 =>
    (read_probe (alternating_cache l a b pc clock_cycle n) (pc n) (alternation a b n)
      (clock_cycle n)).1

/-- An empty level of two rows with associativity 2 and blocks of one cell. -/
def lru_level : level := ⟨4, 2, 1, [⟨[]⟩, ⟨[]⟩]⟩

/-- An empty direct-mapped level of four rows with blocks of one cell. -/
def direct_level : level := ⟨4, 1, 1, [⟨[]⟩, ⟨[]⟩, ⟨[]⟩, ⟨[]⟩]⟩

/-- A running state at pc 2 whose memory holds `j 2` at address 2. -/
def halt_state : machine :=
  ⟨fun a => if a = 2 then 0b0100000000000010 else 0, 2, fun _ => 0, 2, ⟨[direct_level]⟩, false⟩

/-- The image with `lw $1,0($0)` at address 0 and the word 0 (`add $0,$0,$0`)
everywhere else: a program that never halts. -/
def wrap_image : Nat → Nat := fun a => if a = 0 then 0b1000000010000000 else 0

/-- The one-level hierarchy built for the configuration `1,1,1`. -/
def wrap_cache : cache := ⟨[new_level 1 1 1]⟩

/-- A state at pc 0 whose instruction is `addi $1,$2,-1` (immediate field
`0b1111111`), register 2 holding 5. -/
def addi_state : machine :=
  ⟨fun a => if a = 0 then 0b0010100011111111 else 0, 0, fun i => if i = 2 then 5 else 0, 0,
    wrap_cache, false⟩

/-- A state at pc 0 whose instruction is `slti $1,$2,-1` (immediate field
`0b1111111`), register 2 holding 5. -/
def slti_state : machine :=
  ⟨fun a => if a = 0 then 0b1110100011111111 else 0, 0, fun i => if i = 2 then 5 else 0, 0,
    wrap_cache, false⟩

/-- A state at pc 65535 whose instruction, at address 8191, is `jeq $0,$1,0`,
register 1 holding 1: the jump is not taken. -/
def jeq_state : machine :=
  ⟨fun a => if a = 8191 then 0b1100000010000000 else 0, 65535, fun i => if i = 1 then 1 else 0,
    65535, wrap_cache, false⟩

/-- The image whose every word is `j 0`: the run halts at its first instruction. -/
def halt_image : Nat → Nat := fun _ => 0b0100000000000000

/-- The program `addi $1,$0,5; j 1`. -/
def addi_halt_image : Nat → Nat := fun a =>
  if a = 0 then 0b0010000010000101
  else if a = 1 then 0b0100000000000001
  else 0

/-- The program `lw $1,10($0); lw $1,20($0); lw $1,21($0); sw $1,10($0); j 4`. -/
def evict_image : Nat → Nat := fun a =>
  if a = 0 then 0b1000000010001010
  else if a = 1 then 0b1000000010010100
  else if a = 2 then 0b1000000010010101
  else if a = 3 then 0b1010000010001010
  else if a = 4 then 0b0100000000000100
  else 0

/-- The two-level hierarchy built for the configuration `4,4,1,2,2,1`: one row of
associativity 4 at level 1, one row of associativity 2 at level 2. -/
def evict_cache : cache := ⟨[new_level 4 4 1, new_level 2 2 1]⟩

/-- Two states with the same memory, pc, registers, clock and halt flag. -/
def same_processor (s t : machine) : Prop :=
  s.memory = t.memory ∧ s.pc = t.pc ∧ s.regs = t.regs ∧ s.clock_cycle = t.clock_cycle
    ∧ s.halt_checker = t.halt_checker

/-- The distinct-tag condition on a level: no row holds two blocks with the same
tag. -/
def distinct_tags (l : level) : Prop :=
  ∀ r ∈ l.My_rows, (r.My_blocks.map block.tag).Nodup

/-- The `lw` walk with the index checks of the vector accesses made explicit: the
result is `none` when `My_rows[row]` would be read outside the rows of the level,
or when `erase` would be called at an index that is not an index of the row. -/
def lw_walk_checked (pc sum clock_cycle : Nat) :
    List level → Nat → Option (List level × List log_entry)
  | [], _ => some ([], [])
  | l :: ls, curr_level =>
    let row := row_index l sum
    let tag := tag_of l sum
    if row < l.My_rows.length then
      let r := scan tag clock_cycle (blocks_at l row) 0 UINT64_MAX 0
      if r.block_found then
        some (set_blocks l row r.My_blocks :: ls,
          [⟨curr_level + 1, status.HIT, pc, sum % MEM_SIZE, row⟩])
      else if r.My_blocks.length = l.associativity ∧ ¬ r.LRU < r.My_blocks.length then none
      else
        match lw_walk_checked pc sum clock_cycle ls (curr_level + 1) with
        | none => none
        | some rest =>
          some (set_blocks l row (allocate l.associativity tag clock_cycle r) :: rest.1,
            ⟨curr_level + 1, status.MISS, pc, sum % MEM_SIZE, row⟩ :: rest.2)
    else none

/-- The `sw` walk with the same index checks made explicit. -/
def sw_walk_checked (pc sum clock_cycle : Nat) :
    List level → Nat → Bool → Option (List level × List log_entry)
  | [], _, _ => some ([], [])
  | l :: ls, curr_level, block_found =>
    let row := row_index l sum
    let tag := tag_of l sum
    if row < l.My_rows.length then
      let r := scan tag clock_cycle (blocks_at l row) 0 UINT64_MAX 0
      let block_found1 := block_found || r.block_found
      if ¬ block_found1 ∧ r.My_blocks.length = l.associativity
          ∧ ¬ r.LRU < r.My_blocks.length then none
      else
        let blocks := if block_found1 then r.My_blocks
                      else allocate l.associativity tag clock_cycle r
        match sw_walk_checked pc sum clock_cycle ls (curr_level + 1) block_found1 with
        | none => none
        | some rest =>
          some (set_blocks l row blocks :: rest.1,
            ⟨curr_level + 1, status.SW, pc, sum % MEM_SIZE, row⟩ :: rest.2)
    else none

/-- The condition under which a level is walked: at least one row, and the
capacity condition. -/
def walkable (l : level) : Prop := 1 ≤ l.My_rows.length ∧ capped l

/-- The two-level cache of `hit_level1` and `hit_level2`: every row is full. -/
def full_cache : cache := ⟨[hit_level1, hit_level2]⟩

/-- A state at pc 0 whose instruction is `jr $1`, register 1 holding 7. -/
def jr_state : machine :=
  ⟨fun a => if a = 0 then 0b0000010000001000 else 0, 0, fun i => if i = 1 then 7 else 0, 0,
    wrap_cache, false⟩

/-! ## The scan of a row -/

theorem scan_length (tag clock_cycle : Nat) (bs : List block) (i cur lru : Nat) :
    (scan tag clock_cycle bs i cur lru).My_blocks.length = bs.length := by
  induction bs generalizing i cur lru with
  | nil => simp [scan]
  | cons b bs ih =>
    by_cases h : b.tag = tag
    · simp [scan, h]
    · simp [scan, h, ih]

theorem scan_found_iff (tag clock_cycle : Nat) (bs : List block) (i cur lru : Nat) :
    (scan tag clock_cycle bs i cur lru).block_found = true ↔ ∃ b ∈ bs, b.tag = tag := by
  induction bs generalizing i cur lru with
  | nil => simp [scan]
  | cons b bs ih =>
    by_cases h : b.tag = tag
    · simp [scan, h]
    · simp [scan, h, ih]

theorem scan_miss (tag clock_cycle : Nat) (bs : List block) (i cur lru : Nat)
    (h : ∀ b ∈ bs, b.tag ≠ tag) :
    (scan tag clock_cycle bs i cur lru).My_blocks = bs
      ∧ (scan tag clock_cycle bs i cur lru).block_found = false := by
  induction bs generalizing i cur lru with
  | nil => simp [scan]
  | cons b bs ih =>
    have hb : b.tag ≠ tag := h b (List.mem_cons_self _ _)
    have ht : ∀ b ∈ bs, b.tag ≠ tag := fun x hx => h x (List.mem_cons_of_mem _ hx)
    simp [scan, hb, ih _ _ _ ht]

/-- On a hit the scan restamps the first block of the tag and nothing else. -/
theorem scan_hit (tag clock_cycle : Nat) (bs : List block) (i cur lru : Nat)
    (h : ∃ b ∈ bs, b.tag = tag) :
    ∃ k, k < bs.length ∧ (∃ b, bs[k]? = some b ∧ b.tag = tag)
      ∧ (∀ j b, j < k → bs[j]? = some b → b.tag ≠ tag)
      ∧ (scan tag clock_cycle bs i cur lru).My_blocks = bs.set k ⟨clock_cycle, tag⟩
      ∧ (scan tag clock_cycle bs i cur lru).block_found = true := by
  induction bs generalizing i cur lru with
  | nil => simp at h
  | cons b bs ih =>
    by_cases hb : b.tag = tag
    · refine ⟨0, by simp, ⟨b, by simp, hb⟩, by simp, ?_, ?_⟩ <;> simp [scan, hb]
    · have ht : ∃ x ∈ bs, x.tag = tag := by
        obtain ⟨x, hx, hxt⟩ := h
        rcases List.mem_cons.1 hx with rfl | hx
        · exact absurd hxt hb
        · exact ⟨x, hx, hxt⟩
      obtain ⟨k, hk, hkb, hfirst, hset, hfound⟩ := ih (i + 1)
        (if b.clock_cycle_stamp < cur then b.clock_cycle_stamp else cur)
        (if b.clock_cycle_stamp < cur then i else lru) ht
      refine ⟨k + 1, by simpa using hk, by simpa using hkb, ?_, ?_, ?_⟩
      · intro j x hj hx
        cases j with
        | zero =>
          simp at hx
          subst hx
          exact hb
        | succ j => exact hfirst j x (by omega) (by simpa using hx)
      · simp [scan, hb, hset]
      · simp [scan, hb, hfound]

/-- The index `LRU` left by the scan is the initial one or an index met. -/
theorem scan_LRU_range (tag clock_cycle : Nat) (bs : List block) (i cur lru : Nat) :
    (scan tag clock_cycle bs i cur lru).LRU = lru
      ∨ (i ≤ (scan tag clock_cycle bs i cur lru).LRU
          ∧ (scan tag clock_cycle bs i cur lru).LRU < i + bs.length) := by
  induction bs generalizing i cur lru with
  | nil => simp [scan]
  | cons b bs ih =>
    by_cases hb : b.tag = tag
    · by_cases hc : b.clock_cycle_stamp < cur <;> simp [scan, hb, hc]
    · have := ih (i + 1) (if b.clock_cycle_stamp < cur then b.clock_cycle_stamp else cur)
        (if b.clock_cycle_stamp < cur then i else lru)
      by_cases hc : b.clock_cycle_stamp < cur
      · simp only [scan, hb, hc, if_true, if_false] at this ⊢
        simp only [List.length_cons]
        omega
      · simp only [scan, hb, hc, if_true, if_false] at this ⊢
        simp only [List.length_cons]
        omega

/-- From index 0 the scan of a non-empty row leaves an index of the row. -/
theorem scan_LRU_lt (tag clock_cycle : Nat) (bs : List block) (cur : Nat) (h : 0 < bs.length) :
    (scan tag clock_cycle bs 0 cur 0).LRU < bs.length := by
  have := scan_LRU_range tag clock_cycle bs 0 cur 0
  omega

/-! ## One level of the walk -/

theorem blocks_at_set_blocks_same (l : level) (row : Nat) (bs : List block)
    (h : row < l.My_rows.length) : blocks_at (set_blocks l row bs) row = bs := by
  simp [blocks_at, set_blocks, List.getD_eq_getElem?_getD, h]

theorem blocks_at_set_blocks_other (l : level) (row r : Nat) (bs : List block) (h : r ≠ row) :
    blocks_at (set_blocks l row bs) r = blocks_at l r := by
  simp [blocks_at, set_blocks, List.getD_eq_getElem?_getD, List.getElem?_set_ne (Ne.symm h)]

theorem row_lt_of_blocks_ne_nil (l : level) (row : Nat) (h : blocks_at l row ≠ []) :
    row < l.My_rows.length := by
  by_contra hlt
  apply h
  simp [blocks_at, List.getD_eq_getElem?_getD, List.getElem?_eq_none (Nat.le_of_not_lt hlt)]

theorem lw_walk_hit (pc sum clock_cycle : Nat) (l : level) (ls : List level) (n : Nat)
    (h : ∃ b ∈ blocks_at l (row_index l sum), b.tag = tag_of l sum) :
    ∃ k, k < (blocks_at l (row_index l sum)).length
      ∧ (∃ b, (blocks_at l (row_index l sum))[k]? = some b ∧ b.tag = tag_of l sum)
      ∧ (∀ j b, j < k → (blocks_at l (row_index l sum))[j]? = some b → b.tag ≠ tag_of l sum)
      ∧ lw_walk pc sum clock_cycle (l :: ls) n
          = (set_blocks l (row_index l sum)
                ((blocks_at l (row_index l sum)).set k ⟨clock_cycle, tag_of l sum⟩) :: ls,
             [⟨n + 1, status.HIT, pc, sum % MEM_SIZE, row_index l sum⟩]) := by
  obtain ⟨k, hk, hkb, hfirst, hset, hfound⟩ :=
    scan_hit (tag_of l sum) clock_cycle (blocks_at l (row_index l sum)) 0 UINT64_MAX 0 h
  exact ⟨k, hk, hkb, hfirst, by simp [lw_walk, hfound, hset]⟩

theorem lw_walk_miss (pc sum clock_cycle : Nat) (l : level) (ls : List level) (n : Nat)
    (h : ∀ b ∈ blocks_at l (row_index l sum), b.tag ≠ tag_of l sum) :
    lw_walk pc sum clock_cycle (l :: ls) n
      = (set_blocks l (row_index l sum)
            ((if (blocks_at l (row_index l sum)).length = l.associativity
              then (blocks_at l (row_index l sum)).eraseIdx
                (scan (tag_of l sum) clock_cycle (blocks_at l (row_index l sum))
                  0 UINT64_MAX 0).LRU
              else blocks_at l (row_index l sum)) ++ [⟨clock_cycle, tag_of l sum⟩])
          :: (lw_walk pc sum clock_cycle ls (n + 1)).1,
         ⟨n + 1, status.MISS, pc, sum % MEM_SIZE, row_index l sum⟩
          :: (lw_walk pc sum clock_cycle ls (n + 1)).2) := by
  obtain ⟨hbs, hfound⟩ :=
    scan_miss (tag_of l sum) clock_cycle (blocks_at l (row_index l sum)) 0 UINT64_MAX 0 h
  simp [lw_walk, hfound, allocate, hbs]

/-- The lines written by a walk that starts at level `n + 1`: `m` misses at the
levels `n + 1 .. n + m`, then a hit at level `n + m + 1` unless every level missed. -/
theorem lw_walk_events (pc sum clock_cycle : Nat) (ls : List level) (n : Nat) :
    ∃ m, m ≤ ls.length
      ∧ ((lw_walk pc sum clock_cycle ls n).2).map (fun e => (e.cache_name, e.status))
          = (List.range m).map (fun i => (n + i + 1, status.MISS))
              ++ (if m < ls.length then [(n + m + 1, status.HIT)] else [])
      ∧ ∀ e ∈ (lw_walk pc sum clock_cycle ls n).2, e.pc = pc ∧ e.addr = sum % MEM_SIZE := by
  induction ls generalizing n with
  | nil => exact ⟨0, by simp [lw_walk]⟩
  | cons l ls ih =>
    by_cases h : ∃ b ∈ blocks_at l (row_index l sum), b.tag = tag_of l sum
    · obtain ⟨k, -, -, -, hw⟩ := lw_walk_hit pc sum clock_cycle l ls n h
      exact ⟨0, by simp [hw]⟩
    · have h2 : ∀ b ∈ blocks_at l (row_index l sum), b.tag ≠ tag_of l sum := by
        intro b hb hbt
        exact h ⟨b, hb, hbt⟩
      obtain ⟨m, hm, hev, hpc⟩ := ih (n + 1)
      refine ⟨m + 1, by simpa using hm, ?_, ?_⟩
      · rw [lw_walk_miss pc sum clock_cycle l ls n h2]
        simp only [List.map_cons, hev, List.range_succ_eq_map, List.map_map, List.length_cons,
          Nat.add_lt_add_iff_right, List.cons_append, Nat.add_zero]
        congr 1
        congr 1
        · apply List.map_congr_left
          intro i _
          simp only [Function.comp, Nat.succ_eq_add_one]
          congr 1
          omega
        · have : n + 1 + m + 1 = n + (m + 1) + 1 := by omega
          rw [this]
      · rw [lw_walk_miss pc sum clock_cycle l ls n h2]
        intro e he
        rcases List.mem_cons.1 he with rfl | he
        · exact ⟨rfl, rfl⟩
        · exact hpc e he

theorem sw_walk_events (pc sum clock_cycle : Nat) (ls : List level) (n : Nat) (found : Bool) :
    (sw_walk pc sum clock_cycle ls n found).2
      = (ls.enumFrom (n + 1)).map
          (fun p => ⟨p.1, status.SW, pc, sum % MEM_SIZE, row_index p.2 sum⟩) := by
  induction ls generalizing n found with
  | nil => simp [sw_walk]
  | cons l ls ih => simp [sw_walk, ih, List.enumFrom_cons]

/-! ## Capacity -/

theorem blocks_at_length_le (l : level) (row : Nat) (h : capped l) :
    (blocks_at l row).length ≤ l.associativity := by
  unfold blocks_at
  rw [List.getD_eq_getElem?_getD]
  by_cases hr : row < l.My_rows.length
  · rw [List.getElem?_eq_getElem hr]
    exact h.2 _ (List.getElem_mem hr)
  · rw [List.getElem?_eq_none (Nat.le_of_not_lt hr)]
    simp

theorem capped_set_blocks (l : level) (row : Nat) (bs : List block) (h : capped l)
    (hbs : bs.length ≤ l.associativity) : capped (set_blocks l row bs) := by
  refine ⟨h.1, ?_⟩
  intro r hr
  rcases List.mem_or_eq_of_mem_set hr with hr | rfl
  · exact h.2 r hr
  · exact hbs

theorem allocate_length_le (associativity tag clock_cycle : Nat) (bs : List block) (cur : Nat)
    (hassoc : 1 ≤ associativity) (hbs : bs.length ≤ associativity) :
    (allocate associativity tag clock_cycle (scan tag clock_cycle bs 0 cur 0)).length
      ≤ associativity := by
  unfold allocate
  have hlen := scan_length tag clock_cycle bs 0 cur 0
  by_cases hfull : (scan tag clock_cycle bs 0 cur 0).My_blocks.length = associativity
  · have hlt : (scan tag clock_cycle (scan tag clock_cycle bs 0 cur 0).My_blocks 0 cur 0).LRU
        < (scan tag clock_cycle bs 0 cur 0).My_blocks.length :=
      scan_LRU_lt _ _ _ _ (by omega)
    have hlru : (scan tag clock_cycle bs 0 cur 0).LRU
        < (scan tag clock_cycle bs 0 cur 0).My_blocks.length := by
      rw [hlen]
      exact scan_LRU_lt _ _ _ _ (by omega)
    rw [if_pos hfull, List.length_append, List.length_eraseIdx, if_pos hlru]
    simp only [List.length_singleton]
    omega
  · rw [if_neg hfull, List.length_append]
    simp only [List.length_singleton]
    omega

theorem lw_walk_capped (pc sum clock_cycle : Nat) (ls : List level) (n : Nat)
    (h : ∀ l ∈ ls, capped l) : ∀ l ∈ (lw_walk pc sum clock_cycle ls n).1, capped l := by
  induction ls generalizing n with
  | nil => simp [lw_walk]
  | cons l ls ih =>
    have hl : capped l := h l (List.mem_cons_self _ _)
    have hls : ∀ x ∈ ls, capped x := fun x hx => h x (List.mem_cons_of_mem _ hx)
    have hb := blocks_at_length_le l (row_index l sum) hl
    intro x hx
    simp only [lw_walk] at hx
    split at hx
    · rcases List.mem_cons.1 hx with rfl | hx
      · exact capped_set_blocks _ _ _ hl (by rw [scan_length]; exact hb)
      · exact hls x hx
    · rcases List.mem_cons.1 hx with rfl | hx
      · exact capped_set_blocks _ _ _ hl (allocate_length_le _ _ _ _ _ hl.1 hb)
      · exact ih (n + 1) hls x hx

theorem sw_walk_capped (pc sum clock_cycle : Nat) (ls : List level) (n : Nat) (found : Bool)
    (h : ∀ l ∈ ls, capped l) : ∀ l ∈ (sw_walk pc sum clock_cycle ls n found).1, capped l := by
  induction ls generalizing n found with
  | nil => simp [sw_walk]
  | cons l ls ih =>
    have hl : capped l := h l (List.mem_cons_self _ _)
    have hls : ∀ x ∈ ls, capped x := fun x hx => h x (List.mem_cons_of_mem _ hx)
    have hb := blocks_at_length_le l (row_index l sum) hl
    intro x hx
    simp only [sw_walk] at hx
    rcases List.mem_cons.1 hx with rfl | hx
    · apply capped_set_blocks _ _ _ hl
      split
      · rw [scan_length]; exact hb
      · exact allocate_length_le _ _ _ _ _ hl.1 hb
    · exact ih _ _ hls x hx

theorem probe_capped (c : cache) (a : access) (h : ∀ l ∈ c.My_levels, capped l) :
    ∀ l ∈ (probe c a).My_levels, capped l := by
  cases a with
  | lw pc sum clock_cycle => exact lw_walk_capped pc sum clock_cycle _ 0 h
  | sw pc sum clock_cycle => exact sw_walk_capped pc sum clock_cycle _ 0 false h

theorem probes_capped (c : cache) (accesses : List access) (h : ∀ l ∈ c.My_levels, capped l) :
    ∀ l ∈ (probes c accesses).My_levels, capped l := by
  induction accesses generalizing c with
  | nil => exact h
  | cons a accesses ih => exact ih (probe c a) (probe_capped c a h)

/-! ## A hierarchy of one level -/

@[simp] theorem row_index_set_blocks (l : level) (row : Nat) (bs : List block) (sum : Nat) :
    row_index (set_blocks l row bs) sum = row_index l sum := by
  simp [row_index, blockID, set_blocks]

@[simp] theorem tag_of_set_blocks (l : level) (row : Nat) (bs : List block) (sum : Nat) :
    tag_of (set_blocks l row bs) sum = tag_of l sum := by
  simp [tag_of, blockID, set_blocks]

@[simp] theorem associativity_set_blocks (l : level) (row : Nat) (bs : List block) :
    (set_blocks l row bs).associativity = l.associativity := rfl

@[simp] theorem rows_length_set_blocks (l : level) (row : Nat) (bs : List block) :
    (set_blocks l row bs).My_rows.length = l.My_rows.length := by
  simp [set_blocks]

theorem set_blocks_set_blocks (l : level) (row : Nat) (bs bs' : List block) :
    set_blocks (set_blocks l row bs) row bs' = set_blocks l row bs' := by
  simp [set_blocks, List.set_set]

/-- The read probe of a one-level hierarchy, from the blocks of the target row. -/
theorem read_probe_single (l : level) (pc sum clock_cycle : Nat) :
    read_probe ⟨[l]⟩ pc sum clock_cycle
      = if (scan (tag_of l sum) clock_cycle (blocks_at l (row_index l sum)) 0 UINT64_MAX 0).block_found
        then (⟨[set_blocks l (row_index l sum)
                (scan (tag_of l sum) clock_cycle (blocks_at l (row_index l sum))
                  0 UINT64_MAX 0).My_blocks]⟩,
              [⟨1, status.HIT, pc, sum % MEM_SIZE, row_index l sum⟩])
        else (⟨[set_blocks l (row_index l sum)
                (allocate l.associativity (tag_of l sum) clock_cycle
                  (scan (tag_of l sum) clock_cycle (blocks_at l (row_index l sum))
                    0 UINT64_MAX 0))]⟩,
              [⟨1, status.MISS, pc, sum % MEM_SIZE, row_index l sum⟩]) := by
  simp only [read_probe, lw_walk]
  split <;> rfl

theorem write_probe_single (l : level) (pc sum clock_cycle : Nat) :
    (write_probe ⟨[l]⟩ pc sum clock_cycle).1 = (read_probe ⟨[l]⟩ pc sum clock_cycle).1 := by
  simp only [read_probe, write_probe, lw_walk, sw_walk, Bool.false_or]
  split <;> rfl

theorem probe_single (l : level) (write : Bool) (pc sum clock_cycle : Nat) :
    probe ⟨[l]⟩ (access_kind write pc sum clock_cycle)
      = (read_probe ⟨[l]⟩ pc sum clock_cycle).1 := by
  cases write
  · rfl
  · exact write_probe_single l pc sum clock_cycle

/-- In a two-level hierarchy, a write probe that hits in level 1 does not allocate
in level 2: when the target row of level 2 does not hold the tag, level 2 is
returned with that row as it was. -/
theorem write_probe_hit_level1_skips_level2 (l1 l2 : level) (pc sum clock_cycle : Nat)
    (h1 : ∃ b ∈ blocks_at l1 (row_index l1 sum), b.tag = tag_of l1 sum)
    (h2 : ∀ b ∈ blocks_at l2 (row_index l2 sum), b.tag ≠ tag_of l2 sum) :
    ∃ l1', (write_probe ⟨[l1, l2]⟩ pc sum clock_cycle).1
      = ⟨[l1', set_blocks l2 (row_index l2 sum) (blocks_at l2 (row_index l2 sum))]⟩ := by
  have hf := (scan_found_iff (tag_of l1 sum) clock_cycle (blocks_at l1 (row_index l1 sum))
    0 UINT64_MAX 0).2 h1
  have hm := scan_miss (tag_of l2 sum) clock_cycle (blocks_at l2 (row_index l2 sum))
    0 UINT64_MAX 0 h2
  refine ⟨set_blocks l1 (row_index l1 sum)
    (scan (tag_of l1 sum) clock_cycle (blocks_at l1 (row_index l1 sum)) 0 UINT64_MAX 0).My_blocks,
    ?_⟩
  simp [write_probe, sw_walk, hf, hm.1]

theorem alternation_succ_tag (l : level) (a b n : Nat) (htag : tag_of l a ≠ tag_of l b) :
    tag_of l (alternation a b n) ≠ tag_of l (alternation a b (n + 1)) := by
  unfold alternation
  rcases Nat.mod_two_eq_zero_or_one n with h | h
  · have h1 : (n + 1) % 2 = 1 := by omega
    simp [h, h1, htag]
  · have h1 : (n + 1) % 2 = 0 := by omega
    simp [h, h1, Ne.symm htag]

theorem alternation_row (l : level) (a b n : Nat) (hrow : row_index l a = row_index l b) :
    row_index l (alternation a b n) = row_index l a := by
  unfold alternation
  split
  · rfl
  · exact hrow.symm

theorem alternating_cache_invariant (l : level) (a b : Nat) (pc clock_cycle : Nat → Nat)
    (hassoc : l.associativity = 1) (hrows : 0 < l.My_rows.length)
    (hempty : ∀ r ∈ l.My_rows, r.My_blocks = [])
    (hrow : row_index l a = row_index l b) (htag : tag_of l a ≠ tag_of l b) (n : Nat) :
    alternating_cache l a b pc clock_cycle (n + 1)
        = ⟨[set_blocks l (row_index l a) [⟨clock_cycle n, tag_of l (alternation a b n)⟩]]⟩
      ∧ (read_probe (alternating_cache l a b pc clock_cycle n) (pc n) (alternation a b n)
          (clock_cycle n)).2
        = [⟨1, status.MISS, pc n, alternation a b n % MEM_SIZE, row_index l a⟩] := by
  have hr : row_index l a < l.My_rows.length := Nat.mod_lt _ hrows
  induction n with
  | zero =>
    have h0 : blocks_at l (row_index l a) = [] := by
      unfold blocks_at
      rw [List.getD_eq_getElem?_getD, List.getElem?_eq_getElem hr]
      exact hempty _ (List.getElem_mem hr)
    simp only [alternating_cache]
    rw [read_probe_single]
    simp [alternation_row l a b 0 hrow, h0, scan, allocate, hassoc]
  | succ n ih =>
    have hne := alternation_succ_tag l a b n htag
    rw [alternating_cache, ih.1, read_probe_single]
    simp [alternation_row l a b (n + 1) hrow, blocks_at_set_blocks_same, hr, scan, allocate,
      hassoc, hne, set_blocks_set_blocks]

/-! ## The driver loop -/

theorem step_regs_zero (s : machine) : (step s).1.regs 0 = 0 := by
  simp [step, store]

theorem driver_regs_zero (n : Nat) (s : machine) (h : s.regs 0 = 0) :
    (driver n s).1.regs 0 = 0 := by
  induction n generalizing s with
  | zero => exact h
  | succ n ih =>
    unfold driver
    by_cases hh : s.halt_checker = true
    · simp [hh, h]
    · simp only [hh]
      exact ih _ (step_regs_zero s)

theorem driver_halted (n : Nat) (s : machine) (h : s.halt_checker = true) :
    driver n s = (s, []) := by
  cases n with
  | zero => rfl
  | succ n => simp [driver, h]

/-- The step of a `lw` (opcode `100`): the register `regB` receives the word at
`(a + imm) mod 8192`, and the read probe is issued with the value that `regA`
holds after that assignment. -/
theorem step_lw_events (s : machine) (h : s.memory (s.pc % MEM_SIZE) >>> 13 = 0b100) :
    (step s).2
      = (read_probe s.My_cache s.pc
          (store s.regs (regB_index (s.memory (s.pc % MEM_SIZE)))
              (s.memory ((s.regs (regA_index (s.memory (s.pc % MEM_SIZE)))
                + imm7 (s.memory (s.pc % MEM_SIZE))) % MEM_SIZE))
              (regA_index (s.memory (s.pc % MEM_SIZE)))
            + imm7 (s.memory (s.pc % MEM_SIZE)))
          s.clock_cycle).2 := by
  have h4 : s.memory (s.pc % MEM_SIZE) >>> 13 = 4 := h
  have h46 : ¬ ((4 : Nat) &&& 6 = 2) := by decide
  simp only [step, exec_instr, h4]
  simp [h46]

/-- When the two register fields of a `lw` differ, the read probe is issued with
`a + imm`, the sum the load itself used. -/
theorem step_lw_events_distinct (s : machine) (h : s.memory (s.pc % MEM_SIZE) >>> 13 = 0b100)
    (hne : regA_index (s.memory (s.pc % MEM_SIZE)) ≠ regB_index (s.memory (s.pc % MEM_SIZE))) :
    (step s).2
      = (read_probe s.My_cache s.pc
          (s.regs (regA_index (s.memory (s.pc % MEM_SIZE))) + imm7 (s.memory (s.pc % MEM_SIZE)))
          s.clock_cycle).2 := by
  rw [step_lw_events s h]
  simp [store, hne]

theorem exec_instr_halt_other (s : machine)
    (h2 : s.memory (s.pc % MEM_SIZE) >>> 13 ≠ 0b010) :
    (exec_instr s).1.halt_checker = s.halt_checker := by
  have h2' : ¬ (s.memory (s.pc % MEM_SIZE) >>> 13 = 2) := h2
  unfold exec_instr
  simp only [h2', if_false]
  split_ifs <;> rfl

theorem exec_instr_j (s : machine)
    (h2 : s.memory (s.pc % MEM_SIZE) >>> 13 = 0b010) :
    exec_instr s
      = ({ s with pc := imm13 (s.memory (s.pc % MEM_SIZE)),
                  halt_checker := if s.pc = imm13 (s.memory (s.pc % MEM_SIZE)) then true
                                  else s.halt_checker }, []) := by
  have h2' : s.memory (s.pc % MEM_SIZE) >>> 13 = 2 := h2
  have h20 : ¬ ((2 : Nat) = 0) := by decide
  have h26 : (2 : Nat) &&& 6 = 2 := by decide
  unfold exec_instr
  simp only [h2', h20, h26, if_true, if_false]

theorem step_halt_iff (s : machine) (hrun : s.halt_checker = false) :
    ((step s).1.halt_checker = true
        ↔ (s.memory (s.pc % MEM_SIZE) >>> 13 = 0b010
            ∧ imm13 (s.memory (s.pc % MEM_SIZE)) = s.pc))
    ∧ ((step s).1.halt_checker = true → (step s).1.pc = s.pc) := by
  by_cases h2 : s.memory (s.pc % MEM_SIZE) >>> 13 = 0b010
  · have he := exec_instr_j s h2
    by_cases hpc : s.pc = imm13 (s.memory (s.pc % MEM_SIZE))
    · simp only [step, he, if_pos hpc, h2, true_and]
      exact ⟨⟨fun _ => hpc.symm, fun _ => trivial⟩, fun _ => hpc.symm⟩
    · simp only [step, he, if_neg hpc, h2, true_and, hrun]
      exact ⟨⟨fun h => by simp at h, fun h => absurd h.symm hpc⟩, fun h => by simp at h⟩
  · have he := exec_instr_halt_other s h2
    simp only [step, he, hrun, h2, false_and]
    exact ⟨⟨fun h => by simp at h, fun h => h.elim⟩, fun h => by simp at h⟩

/-! ## Single instructions -/

theorem imm7_cases : ∀ v, v < 128 →
    (if v &&& 0b1000000 = 0b1000000 then v ^^^ 0b1111111110000000 else v)
      = if v < 64 then v else v + 65408 := by
  decide

theorem and_127_lt (w : Nat) : w &&& 0b0000000001111111 < 128 :=
  Nat.lt_succ_of_le Nat.and_le_right

/-- The immediate of a two-register instruction, from its 7-bit field `v`. -/
theorem imm7_eq (w : Nat) :
    imm7 w = if w &&& 0b1111111 < 64 then w &&& 0b1111111 else (w &&& 0b1111111) + 65408 := by
  unfold imm7
  exact imm7_cases _ (and_127_lt w)

theorem u16_add (a b : Nat) : u16 ((a : Int) + b) = (a + b) % 65536 := by
  unfold u16
  omega

theorem u16_succ (a : Nat) : u16 ((a : Int) + 1) = (a + 1) % 65536 := by
  unfold u16
  omega

theorem u16_pred_succ (a : Nat) : u16 ((u16 ((a : Int) - 1) : Int) + 1) = a % 65536 := by
  unfold u16
  omega

theorem u16_add_succ (a b : Nat) : u16 ((u16 ((a : Int) + b) : Int) + 1) = (b + a + 1) % 65536 := by
  unfold u16
  omega

theorem exec_instr_slti (s : machine) (h : s.memory (s.pc % MEM_SIZE) >>> 13 = 0b111) :
    exec_instr s
      = ({ s with
            regs := store s.regs (regB_index (s.memory (s.pc % MEM_SIZE)))
              (if s.regs (regA_index (s.memory (s.pc % MEM_SIZE)))
                  < imm7 (s.memory (s.pc % MEM_SIZE)) then 1 else 0),
            pc := (s.pc + 1) % 65536 }, []) := by
  have h7 : s.memory (s.pc % MEM_SIZE) >>> 13 = 7 := h
  have h76 : ¬ ((7 : Nat) &&& 6 = 2) := by decide
  simp only [exec_instr, h7]
  simp [h76, u16_succ]

theorem exec_instr_sw (s : machine) (h : s.memory (s.pc % MEM_SIZE) >>> 13 = 0b101) :
    exec_instr s
      = ({ s with
            memory := store s.memory
              ((s.regs (regA_index (s.memory (s.pc % MEM_SIZE)))
                + imm7 (s.memory (s.pc % MEM_SIZE))) % MEM_SIZE)
              (s.regs (regB_index (s.memory (s.pc % MEM_SIZE)))),
            My_cache := (write_probe s.My_cache s.pc
              (s.regs (regA_index (s.memory (s.pc % MEM_SIZE)))
                + imm7 (s.memory (s.pc % MEM_SIZE))) s.clock_cycle).1,
            pc := (s.pc + 1) % 65536 },
          (write_probe s.My_cache s.pc
              (s.regs (regA_index (s.memory (s.pc % MEM_SIZE)))
                + imm7 (s.memory (s.pc % MEM_SIZE))) s.clock_cycle).2) := by
  have h5 : s.memory (s.pc % MEM_SIZE) >>> 13 = 5 := h
  have h56 : ¬ ((5 : Nat) &&& 6 = 2) := by decide
  simp only [exec_instr, h5]
  simp [h56, u16_succ]

theorem exec_instr_lw (s : machine) (h : s.memory (s.pc % MEM_SIZE) >>> 13 = 0b100) :
    exec_instr s
      = ({ s with
            regs := store s.regs (regB_index (s.memory (s.pc % MEM_SIZE)))
              (s.memory ((s.regs (regA_index (s.memory (s.pc % MEM_SIZE)))
                + imm7 (s.memory (s.pc % MEM_SIZE))) % MEM_SIZE)),
            My_cache := (read_probe s.My_cache s.pc
              (store s.regs (regB_index (s.memory (s.pc % MEM_SIZE)))
                  (s.memory ((s.regs (regA_index (s.memory (s.pc % MEM_SIZE)))
                    + imm7 (s.memory (s.pc % MEM_SIZE))) % MEM_SIZE))
                  (regA_index (s.memory (s.pc % MEM_SIZE)))
                + imm7 (s.memory (s.pc % MEM_SIZE))) s.clock_cycle).1,
            pc := (s.pc + 1) % 65536 },
          (read_probe s.My_cache s.pc
              (store s.regs (regB_index (s.memory (s.pc % MEM_SIZE)))
                  (s.memory ((s.regs (regA_index (s.memory (s.pc % MEM_SIZE)))
                    + imm7 (s.memory (s.pc % MEM_SIZE))) % MEM_SIZE))
                  (regA_index (s.memory (s.pc % MEM_SIZE)))
                + imm7 (s.memory (s.pc % MEM_SIZE))) s.clock_cycle).2) := by
  have h4 : s.memory (s.pc % MEM_SIZE) >>> 13 = 4 := h
  have h46 : ¬ ((4 : Nat) &&& 6 = 2) := by decide
  simp only [exec_instr, h4]
  simp [h46, u16_succ]

theorem exec_instr_jeq (s : machine) (h : s.memory (s.pc % MEM_SIZE) >>> 13 = 0b110) :
    exec_instr s
      = ({ s with
            pc := if s.regs (regA_index (s.memory (s.pc % MEM_SIZE)))
                    = s.regs (regB_index (s.memory (s.pc % MEM_SIZE)))
                  then (s.pc + imm7 (s.memory (s.pc % MEM_SIZE)) + 1) % 65536
                  else (s.pc + 1) % 65536 }, []) := by
  have h6 : s.memory (s.pc % MEM_SIZE) >>> 13 = 6 := h
  have h66 : ¬ ((6 : Nat) &&& 6 = 2) := by decide
  simp only [exec_instr, h6]
  by_cases hab : s.regs (regA_index (s.memory (s.pc % MEM_SIZE)))
      = s.regs (regB_index (s.memory (s.pc % MEM_SIZE)))
  · simp [h66, hab, u16_add_succ]
  · simp [h66, hab, u16_succ]

/-- The pc after an instruction of class `000`: the value of `regA` for `jr`, the
next address otherwise. -/
theorem exec_instr_class0_pc (s : machine) (h : s.memory (s.pc % MEM_SIZE) >>> 13 = 0b000) :
    (exec_instr s).1.pc
      = if s.memory (s.pc % MEM_SIZE) &&& 0b1111 = 0b1000
            ∧ s.memory (s.pc % MEM_SIZE) &&& 0b0000001111110000 = 0
        then s.regs (regA_index (s.memory (s.pc % MEM_SIZE))) % 65536
        else (s.pc + 1) % 65536 := by
  have h0 : s.memory (s.pc % MEM_SIZE) >>> 13 = 0 := h
  simp only [exec_instr, h0, if_true]
  split_ifs <;> first | exact u16_succ _ | exact u16_pred_succ _ | omega

theorem exec_instr_addi (s : machine) (h : s.memory (s.pc % MEM_SIZE) >>> 13 = 0b001) :
    exec_instr s
      = ({ s with
            regs := store s.regs (regB_index (s.memory (s.pc % MEM_SIZE)))
              ((s.regs (regA_index (s.memory (s.pc % MEM_SIZE)))
                + imm7 (s.memory (s.pc % MEM_SIZE))) % 65536),
            pc := (s.pc + 1) % 65536 }, []) := by
  have h1 : s.memory (s.pc % MEM_SIZE) >>> 13 = 1 := h
  have h16 : ¬ ((1 : Nat) &&& 6 = 2) := by decide
  simp only [exec_instr, h1]
  simp [h16, u16_add, u16_succ]

/-! ## Runs of the driver loop -/

theorem driver_succ_last (n : Nat) (s : machine) :
    (driver (n + 1) s).1
      = if (driver n s).1.halt_checker then (driver n s).1 else (step (driver n s).1).1 := by
  induction n generalizing s with
  | zero =>
    by_cases h : s.halt_checker = true
    · simp [driver, h]
    · simp [driver, h]
  | succ n ih =>
    by_cases h : s.halt_checker = true
    · simp [driver, h]
    · have h1 : (driver (n + 1 + 1) s).1 = (driver (n + 1) (step s).1).1 := by
        rw [driver]
        simp [h]
      have h2 : (driver (n + 1) s).1 = (driver n (step s).1).1 := by
        rw [driver]
        simp [h]
      rw [h1, h2]
      exact ih (step s).1

theorem step_clock (s : machine) : (step s).1.clock_cycle = (s.clock_cycle + 1) % 65536 := by
  have h : (exec_instr s).1.clock_cycle = s.clock_cycle := by
    simp only [exec_instr]
    split_ifs <;> rfl
  simp only [step, h, u16_succ]

theorem exec_instr_zero (s : machine) (hw : s.memory (s.pc % MEM_SIZE) = 0) :
    exec_instr s
      = ({ s with regs := store s.regs 0 (u16 ((s.regs 0 : Int) + s.regs 0)),
                  pc := (s.pc + 1) % 65536 }, []) := by
  simp only [exec_instr, hw]
  simp [regA_index, regB_index, regDst_index, u16_succ]

theorem wrap_cache_eq : wrap_cache = ⟨[⟨1, 1, 1, [⟨[]⟩]⟩]⟩ := by decide

theorem wrap_probe_miss (pc clock_cycle : Nat) :
    read_probe ⟨[⟨1, 1, 1, [⟨[]⟩]⟩]⟩ pc 0 clock_cycle
      = (⟨[⟨1, 1, 1, [⟨[⟨clock_cycle, 0⟩]⟩]⟩]⟩, [⟨1, status.MISS, pc, 0, 0⟩]) := by
  simp [read_probe, lw_walk, row_index, tag_of, blockID, blocks_at, set_blocks, scan, allocate,
    MEM_SIZE]

theorem wrap_probe_hit (pc clock_cycle stamp : Nat) :
    read_probe ⟨[⟨1, 1, 1, [⟨[⟨stamp, 0⟩]⟩]⟩]⟩ pc 0 clock_cycle
      = (⟨[⟨1, 1, 1, [⟨[⟨clock_cycle, 0⟩]⟩]⟩]⟩, [⟨1, status.HIT, pc, 0, 0⟩]) := by
  simp [read_probe, lw_walk, row_index, tag_of, blockID, blocks_at, set_blocks, scan, MEM_SIZE]

/-- The run of `wrap_image`: before the instruction number `n` (from 0) the pc and
the clock are `n mod 65536`, and the only block of the cache carries the clock of
the last `lw`, the instruction number `(n - 1) / 8192 * 8192`. -/
theorem wrap_run (n : Nat) :
    (driver n (init wrap_image wrap_cache)).1.pc = n % 65536
    ∧ (driver n (init wrap_image wrap_cache)).1.clock_cycle = n % 65536
    ∧ (driver n (init wrap_image wrap_cache)).1.memory = wrap_image
    ∧ (driver n (init wrap_image wrap_cache)).1.halt_checker = false
    ∧ (driver n (init wrap_image wrap_cache)).1.regs 0 = 0
    ∧ (driver n (init wrap_image wrap_cache)).1.My_cache
        = if n = 0 then ⟨[⟨1, 1, 1, [⟨[]⟩]⟩]⟩
          else ⟨[⟨1, 1, 1, [⟨[⟨(n - 1) / 8192 * 8192 % 65536, 0⟩]⟩]⟩]⟩ := by
  induction n with
  | zero => exact ⟨rfl, rfl, rfl, rfl, rfl, wrap_cache_eq⟩
  | succ n ih =>
    obtain ⟨hpc, hclk, hmem, hhalt, hregs, hcache⟩ := ih
    rw [driver_succ_last]
    simp only [hhalt, Bool.false_eq_true, if_false]
    generalize (driver n (init wrap_image wrap_cache)).1 = s at hpc hclk hmem hhalt hregs hcache
    by_cases hn : n % 8192 = 0
    · have hw : s.memory (s.pc % MEM_SIZE) = 0b1000000010000000 := by
        have : s.pc % MEM_SIZE = 0 := by
          rw [hpc]
          unfold MEM_SIZE
          omega
        rw [hmem, this]
        rfl
      have hop : s.memory (s.pc % MEM_SIZE) >>> 13 = 0b100 := by
        rw [hw]
        decide
      have hA : regA_index 0b1000000010000000 = 0 := by decide
      have hB : regB_index 0b1000000010000000 = 1 := by decide
      have hI : imm7 0b1000000010000000 = 0 := by decide
      simp only [step, exec_instr_lw s hop, hw, hA, hB, hI]
      have hsum : store s.regs 1 (s.memory ((s.regs 0 + 0) % MEM_SIZE)) 0 + 0 = 0 := by
        simp [store, hregs]
      rw [hsum]
      refine ⟨?_, ?_, hmem, hhalt, by simp [store], ?_⟩
      · show (s.pc + 1) % 65536 = (n + 1) % 65536
        rw [hpc]
        omega
      · show u16 ((s.clock_cycle : Int) + 1) = (n + 1) % 65536
        rw [u16_succ, hclk]
        omega
      · show (read_probe s.My_cache s.pc 0 s.clock_cycle).1 = _
        rw [hcache]
        have hstamp : s.clock_cycle = n / 8192 * 8192 % 65536 := by
          rw [hclk]
          omega
        by_cases h0 : n = 0
        · simp only [h0, if_true, wrap_probe_miss]
          simp [hstamp, h0]
        · simp only [h0, if_false, wrap_probe_hit]
          simp [hstamp]
    · have hw : s.memory (s.pc % MEM_SIZE) = 0 := by
        have : s.pc % MEM_SIZE ≠ 0 := by
          rw [hpc]
          unfold MEM_SIZE
          omega
        rw [hmem]
        simp [wrap_image, this]
      simp only [step, exec_instr_zero s hw]
      refine ⟨?_, ?_, hmem, hhalt, by simp [store], ?_⟩
      · show (s.pc + 1) % 65536 = (n + 1) % 65536
        rw [hpc]
        omega
      · show u16 ((s.clock_cycle : Int) + 1) = (n + 1) % 65536
        rw [u16_succ, hclk]
        omega
      · show s.My_cache = _
        rw [hcache]
        have h0 : n ≠ 0 := by
          intro h
          rw [h] at hn
          simp at hn
        have hstamp : (n - 1) / 8192 * 8192 % 65536 = n / 8192 * 8192 % 65536 := by
          omega
        simp [h0, hstamp]

/-! ## The eviction index -/

/-- On a miss, the index `LRU` left by the scan is either the initial one, no stamp
of the row being below `cur`, or the first index of the least stamp, which is
below `cur`. -/
theorem scan_LRU_spec (tag clock_cycle : Nat) (bs : List block) (i cur lru : Nat)
    (hmiss : ∀ b ∈ bs, b.tag ≠ tag) :
    ((scan tag clock_cycle bs i cur lru).LRU = lru ∧ ∀ b ∈ bs, cur ≤ b.clock_cycle_stamp)
    ∨ ∃ k b, bs[k]? = some b ∧ (scan tag clock_cycle bs i cur lru).LRU = i + k
        ∧ b.clock_cycle_stamp < cur
        ∧ (∀ j c, j < k → bs[j]? = some c → b.clock_cycle_stamp < c.clock_cycle_stamp)
        ∧ (∀ c ∈ bs, b.clock_cycle_stamp ≤ c.clock_cycle_stamp) := by
  induction bs generalizing i cur lru with
  | nil => exact Or.inl ⟨rfl, by simp⟩
  | cons b bs ih =>
    have hb : b.tag ≠ tag := hmiss b (List.mem_cons_self _ _)
    have ht : ∀ x ∈ bs, x.tag ≠ tag := fun x hx => hmiss x (List.mem_cons_of_mem _ hx)
    by_cases hc : b.clock_cycle_stamp < cur
    · have hs : (scan tag clock_cycle (b :: bs) i cur lru).LRU
          = (scan tag clock_cycle bs (i + 1) b.clock_cycle_stamp i).LRU := by
        simp [scan, hb, hc]
      rw [hs]
      right
      rcases ih (i + 1) b.clock_cycle_stamp i ht with ⟨hl, hall⟩ | ⟨k, x, hk, hl, hlt, hfirst, hall⟩
      · refine ⟨0, b, by simp, by simpa using hl, hc, by simp, ?_⟩
        intro c hcm
        rcases List.mem_cons.1 hcm with rfl | hcm
        · exact Nat.le_refl _
        · exact hall c hcm
      · refine ⟨k + 1, x, by simpa using hk, by rw [hl]; omega, by omega, ?_, ?_⟩
        · intro j c hj hjc
          cases j with
          | zero =>
            simp at hjc
            subst hjc
            exact hlt
          | succ j => exact hfirst j c (by omega) (by simpa using hjc)
        · intro c hcm
          rcases List.mem_cons.1 hcm with rfl | hcm
          · omega
          · exact hall c hcm
    · have hs : (scan tag clock_cycle (b :: bs) i cur lru).LRU
          = (scan tag clock_cycle bs (i + 1) cur lru).LRU := by
        simp [scan, hb, hc]
      rw [hs]
      rcases ih (i + 1) cur lru ht with ⟨hl, hall⟩ | ⟨k, x, hk, hl, hlt, hfirst, hall⟩
      · left
        refine ⟨hl, ?_⟩
        intro c hcm
        rcases List.mem_cons.1 hcm with rfl | hcm
        · omega
        · exact hall c hcm
      · right
        refine ⟨k + 1, x, by simpa using hk, by rw [hl]; omega, hlt, ?_, ?_⟩
        · intro j c hj hjc
          cases j with
          | zero =>
            simp at hjc
            subst hjc
            omega
          | succ j => exact hfirst j c (by omega) (by simpa using hjc)
        · intro c hcm
          rcases List.mem_cons.1 hcm with rfl | hcm
          · omega
          · exact hall c hcm

/-- On a miss in a non-empty row whose stamps are below `UINT64_MAX` (they are
32-bit values), the index `LRU` is the lowest index among the blocks of least
stamp. -/
theorem scan_LRU_first_min (tag clock_cycle : Nat) (bs : List block)
    (hmiss : ∀ b ∈ bs, b.tag ≠ tag) (hne : bs ≠ [])
    (hstamps : ∀ b ∈ bs, b.clock_cycle_stamp < UINT64_MAX) :
    ∃ b, bs[(scan tag clock_cycle bs 0 UINT64_MAX 0).LRU]? = some b
      ∧ (∀ j c, j < (scan tag clock_cycle bs 0 UINT64_MAX 0).LRU → bs[j]? = some c
          → b.clock_cycle_stamp < c.clock_cycle_stamp)
      ∧ (∀ c ∈ bs, b.clock_cycle_stamp ≤ c.clock_cycle_stamp) := by
  rcases scan_LRU_spec tag clock_cycle bs 0 UINT64_MAX 0 hmiss with
    ⟨-, hall⟩ | ⟨k, b, hk, hl, -, hfirst, hall⟩
  · cases bs with
    | nil => exact absurd rfl hne
    | cons b bs =>
      have h1 := hall b (List.mem_cons_self _ _)
      have h2 := hstamps b (List.mem_cons_self _ _)
      omega
  · rw [hl, Nat.zero_add]
    exact ⟨b, hk, hfirst, hall⟩

/-- A read probe that misses at the first level of a walk, in a row that holds
`associativity` blocks (at least one) with 32-bit stamps: the row becomes its
blocks less the one at the lowest index among those of least stamp, in their
order, followed by the new block. -/
theorem lw_walk_miss_evicts_lru (pc sum clock_cycle : Nat) (l : level) (ls : List level)
    (n : Nat) (h : ∀ b ∈ blocks_at l (row_index l sum), b.tag ≠ tag_of l sum)
    (hfull : (blocks_at l (row_index l sum)).length = l.associativity)
    (hassoc : 0 < l.associativity)
    (hstamps : ∀ b ∈ blocks_at l (row_index l sum), b.clock_cycle_stamp < UINT64_MAX) :
    ∃ k b, (blocks_at l (row_index l sum))[k]? = some b
      ∧ (∀ j c, j < k → (blocks_at l (row_index l sum))[j]? = some c
          → b.clock_cycle_stamp < c.clock_cycle_stamp)
      ∧ (∀ c ∈ blocks_at l (row_index l sum), b.clock_cycle_stamp ≤ c.clock_cycle_stamp)
      ∧ (lw_walk pc sum clock_cycle (l :: ls) n).1
          = set_blocks l (row_index l sum)
              ((blocks_at l (row_index l sum)).eraseIdx k ++ [⟨clock_cycle, tag_of l sum⟩])
            :: (lw_walk pc sum clock_cycle ls (n + 1)).1 := by
  have hne : blocks_at l (row_index l sum) ≠ [] := by
    intro hnil
    rw [hnil] at hfull
    simp at hfull
    omega
  obtain ⟨b, hb, hfirst, hall⟩ :=
    scan_LRU_first_min (tag_of l sum) clock_cycle _ h hne hstamps
  refine ⟨_, b, hb, hfirst, hall, ?_⟩
  rw [lw_walk_miss pc sum clock_cycle l ls n h, if_pos hfull]

theorem sw_walk_miss (pc sum clock_cycle : Nat) (l : level) (ls : List level) (n : Nat)
    (h : ∀ b ∈ blocks_at l (row_index l sum), b.tag ≠ tag_of l sum) :
    sw_walk pc sum clock_cycle (l :: ls) n false
      = (set_blocks l (row_index l sum)
            ((if (blocks_at l (row_index l sum)).length = l.associativity
              then (blocks_at l (row_index l sum)).eraseIdx
                (scan (tag_of l sum) clock_cycle (blocks_at l (row_index l sum))
                  0 UINT64_MAX 0).LRU
              else blocks_at l (row_index l sum)) ++ [⟨clock_cycle, tag_of l sum⟩])
          :: (sw_walk pc sum clock_cycle ls (n + 1) false).1,
         ⟨n + 1, status.SW, pc, sum % MEM_SIZE, row_index l sum⟩
          :: (sw_walk pc sum clock_cycle ls (n + 1) false).2) := by
  obtain ⟨hbs, hfound⟩ :=
    scan_miss (tag_of l sum) clock_cycle (blocks_at l (row_index l sum)) 0 UINT64_MAX 0 h
  simp [sw_walk, hfound, allocate, hbs]

/-- A write probe that misses at a level reached with `block_found` still false,
in a row that holds `associativity` blocks (at least one) with 32-bit stamps:
the same eviction and insertion as for a read probe. -/
theorem sw_walk_miss_evicts_lru (pc sum clock_cycle : Nat) (l : level) (ls : List level)
    (n : Nat) (h : ∀ b ∈ blocks_at l (row_index l sum), b.tag ≠ tag_of l sum)
    (hfull : (blocks_at l (row_index l sum)).length = l.associativity)
    (hassoc : 0 < l.associativity)
    (hstamps : ∀ b ∈ blocks_at l (row_index l sum), b.clock_cycle_stamp < UINT64_MAX) :
    ∃ k b, (blocks_at l (row_index l sum))[k]? = some b
      ∧ (∀ j c, j < k → (blocks_at l (row_index l sum))[j]? = some c
          → b.clock_cycle_stamp < c.clock_cycle_stamp)
      ∧ (∀ c ∈ blocks_at l (row_index l sum), b.clock_cycle_stamp ≤ c.clock_cycle_stamp)
      ∧ (sw_walk pc sum clock_cycle (l :: ls) n false).1
          = set_blocks l (row_index l sum)
              ((blocks_at l (row_index l sum)).eraseIdx k ++ [⟨clock_cycle, tag_of l sum⟩])
            :: (sw_walk pc sum clock_cycle ls (n + 1) false).1 := by
  have hne : blocks_at l (row_index l sum) ≠ [] := by
    intro hnil
    rw [hnil] at hfull
    simp at hfull
    omega
  obtain ⟨b, hb, hfirst, hall⟩ :=
    scan_LRU_first_min (tag_of l sum) clock_cycle _ h hne hstamps
  refine ⟨_, b, hb, hfirst, hall, ?_⟩
  rw [sw_walk_miss pc sum clock_cycle l ls n h, if_pos hfull]

/-! ## Class `000`, and the cache in the processor state -/

/-- An instruction of class `000` whose low four bits are above `0100` and which
is not `jr`: only the pc changes. -/
theorem exec_instr_class0_noop (s : machine) (h : s.memory (s.pc % MEM_SIZE) >>> 13 = 0b000)
    (hlow : 0b0100 < s.memory (s.pc % MEM_SIZE) &&& 0b1111)
    (hjr : ¬ (s.memory (s.pc % MEM_SIZE) &&& 0b1111 = 0b1000
      ∧ s.memory (s.pc % MEM_SIZE) &&& 0b0000001111110000 = 0)) :
    exec_instr s = ({ s with pc := (s.pc + 1) % 65536 }, []) := by
  have h0 : s.memory (s.pc % MEM_SIZE) >>> 13 = 0 := h
  have e0 : ¬ (s.memory (s.pc % MEM_SIZE) &&& 15 = 0) := by omega
  have e1 : ¬ (s.memory (s.pc % MEM_SIZE) &&& 15 = 1) := by omega
  have e2 : ¬ (s.memory (s.pc % MEM_SIZE) &&& 15 = 2) := by omega
  have e3 : ¬ (s.memory (s.pc % MEM_SIZE) &&& 15 = 3) := by omega
  have e4 : ¬ (s.memory (s.pc % MEM_SIZE) &&& 15 = 4) := by omega
  have e8 : ¬ (s.memory (s.pc % MEM_SIZE) &&& 15 = 8
      ∧ s.memory (s.pc % MEM_SIZE) &&& 1008 = 0) := hjr
  simp only [exec_instr, h0, if_true, e0, e1, e2, e3, e4, e8, if_false, u16_succ]

/-- The instruction `jr`: the pc becomes the value of `regA`. -/
theorem exec_instr_jr (s : machine) (h : s.memory (s.pc % MEM_SIZE) >>> 13 = 0b000)
    (hjr : s.memory (s.pc % MEM_SIZE) &&& 0b1111 = 0b1000
      ∧ s.memory (s.pc % MEM_SIZE) &&& 0b0000001111110000 = 0) :
    exec_instr s
      = ({ s with pc := s.regs (regA_index (s.memory (s.pc % MEM_SIZE))) % 65536 }, []) := by
  have h0 : s.memory (s.pc % MEM_SIZE) >>> 13 = 0 := h
  have h8 : s.memory (s.pc % MEM_SIZE) &&& 15 = 8 := hjr.1
  have hz : s.memory (s.pc % MEM_SIZE) &&& 1008 = 0 := hjr.2
  simp only [exec_instr, h0, if_true, h8, hz]
  simp [u16_pred_succ]

theorem exec_instr_cache (s : machine) (c : cache) :
    same_processor (exec_instr { s with My_cache := c }).1 (exec_instr s).1 := by
  simp only [exec_instr, same_processor]
  split_ifs <;> exact ⟨rfl, rfl, rfl, rfl, rfl⟩

theorem step_same_processor (s t : machine) (h : same_processor s t) :
    same_processor (step s).1 (step t).1 := by
  obtain ⟨hm, hp, hr, hc, hh⟩ := h
  have hs : s = { t with My_cache := s.My_cache } := by
    cases s
    cases t
    simp only at hm hp hr hc hh
    subst hm hp hr hc hh
    rfl
  rw [hs]
  obtain ⟨em, ep, er, ec, eh⟩ := exec_instr_cache t s.My_cache
  exact ⟨em, ep, by simp only [step, er], by simp only [step, ec], eh⟩

theorem driver_same_processor (n : Nat) (s t : machine) (h : same_processor s t) :
    same_processor (driver n s).1 (driver n t).1 := by
  induction n generalizing s t with
  | zero => exact h
  | succ n ih =>
    have hh : s.halt_checker = t.halt_checker := h.2.2.2.2
    by_cases ht : t.halt_checker = true
    · simp only [driver, hh, ht, if_true]
      exact h
    · simp only [driver, hh, ht]
      exact ih _ _ (step_same_processor s t h)

/-! ## Distinct tags -/

theorem scan_tags (tag clock_cycle : Nat) (bs : List block) (i cur lru : Nat) :
    (scan tag clock_cycle bs i cur lru).My_blocks.map block.tag = bs.map block.tag := by
  induction bs generalizing i cur lru with
  | nil => simp [scan]
  | cons b bs ih =>
    by_cases h : b.tag = tag
    · simp [scan, h]
    · simp [scan, h, ih]

theorem blocks_at_nodup (l : level) (row : Nat) (h : distinct_tags l) :
    ((blocks_at l row).map block.tag).Nodup := by
  unfold blocks_at
  rw [List.getD_eq_getElem?_getD]
  by_cases hr : row < l.My_rows.length
  · rw [List.getElem?_eq_getElem hr]
    exact h _ (List.getElem_mem hr)
  · rw [List.getElem?_eq_none (Nat.le_of_not_lt hr)]
    simp

theorem distinct_tags_set_blocks (l : level) (row : Nat) (bs : List block)
    (h : distinct_tags l) (hbs : (bs.map block.tag).Nodup) :
    distinct_tags (set_blocks l row bs) := by
  intro r hr
  rcases List.mem_or_eq_of_mem_set hr with hr | rfl
  · exact h r hr
  · exact hbs

theorem allocate_nodup (associativity tag clock_cycle : Nat) (bs : List block) (cur : Nat)
    (hbs : (bs.map block.tag).Nodup) (hmiss : ∀ b ∈ bs, b.tag ≠ tag) :
    ((allocate associativity tag clock_cycle (scan tag clock_cycle bs 0 cur 0)).map
      block.tag).Nodup := by
  obtain ⟨hsame, -⟩ := scan_miss tag clock_cycle bs 0 cur 0 hmiss
  unfold allocate
  rw [hsame]
  have hkept : ∀ kept : List block, kept.Sublist bs →
      ((kept ++ [(⟨clock_cycle, tag⟩ : block)]).map block.tag).Nodup := by
    intro kept hsub
    rw [List.map_append, List.nodup_append]
    refine ⟨hbs.sublist (hsub.map _), by simp, ?_⟩
    intro x hx hx'
    simp only [List.map_cons, List.map_nil, List.mem_singleton] at hx'
    obtain ⟨b, hb, rfl⟩ := List.mem_map.1 hx
    exact hmiss b (hsub.subset hb) hx'
  split
  · exact hkept _ (List.eraseIdx_sublist _ _)
  · exact hkept _ (List.Sublist.refl _)

theorem lw_walk_distinct (pc sum clock_cycle : Nat) (ls : List level) (n : Nat)
    (h : ∀ l ∈ ls, distinct_tags l) :
    ∀ l ∈ (lw_walk pc sum clock_cycle ls n).1, distinct_tags l := by
  induction ls generalizing n with
  | nil => simp [lw_walk]
  | cons l ls ih =>
    have hl : distinct_tags l := h l (List.mem_cons_self _ _)
    have hls : ∀ x ∈ ls, distinct_tags x := fun x hx => h x (List.mem_cons_of_mem _ hx)
    have hb := blocks_at_nodup l (row_index l sum) hl
    intro x hx
    simp only [lw_walk] at hx
    split at hx
    · rcases List.mem_cons.1 hx with rfl | hx
      · exact distinct_tags_set_blocks _ _ _ hl (by rw [scan_tags]; exact hb)
      · exact hls x hx
    · next hf =>
      rcases List.mem_cons.1 hx with rfl | hx
      · apply distinct_tags_set_blocks _ _ _ hl
        apply allocate_nodup _ _ _ _ _ hb
        intro b hbm hbt
        exact hf ((scan_found_iff _ _ _ _ _ _).2 ⟨b, hbm, hbt⟩)
      · exact ih (n + 1) hls x hx

theorem sw_walk_distinct (pc sum clock_cycle : Nat) (ls : List level) (n : Nat) (found : Bool)
    (h : ∀ l ∈ ls, distinct_tags l) :
    ∀ l ∈ (sw_walk pc sum clock_cycle ls n found).1, distinct_tags l := by
  induction ls generalizing n found with
  | nil => simp [sw_walk]
  | cons l ls ih =>
    have hl : distinct_tags l := h l (List.mem_cons_self _ _)
    have hls : ∀ x ∈ ls, distinct_tags x := fun x hx => h x (List.mem_cons_of_mem _ hx)
    have hb := blocks_at_nodup l (row_index l sum) hl
    intro x hx
    simp only [sw_walk] at hx
    rcases List.mem_cons.1 hx with rfl | hx
    · apply distinct_tags_set_blocks _ _ _ hl
      split
      · rw [scan_tags]; exact hb
      · next hf =>
        apply allocate_nodup _ _ _ _ _ hb
        intro b hbm hbt
        apply hf
        rw [(scan_found_iff _ _ _ _ _ _).2 ⟨b, hbm, hbt⟩]
        simp
    · exact ih _ _ hls x hx

theorem probe_distinct (c : cache) (a : access) (h : ∀ l ∈ c.My_levels, distinct_tags l) :
    ∀ l ∈ (probe c a).My_levels, distinct_tags l := by
  cases a with
  | lw pc sum clock_cycle => exact lw_walk_distinct pc sum clock_cycle _ 0 h
  | sw pc sum clock_cycle => exact sw_walk_distinct pc sum clock_cycle _ 0 false h

theorem probes_distinct (c : cache) (accesses : List access)
    (h : ∀ l ∈ c.My_levels, distinct_tags l) :
    ∀ l ∈ (probes c accesses).My_levels, distinct_tags l := by
  induction accesses generalizing c with
  | nil => exact h
  | cons a accesses ih => exact ih (probe c a) (probe_distinct c a h)

/-! ## Index checks -/

theorem row_index_lt (l : level) (sum : Nat) (h : 1 ≤ l.My_rows.length) :
    row_index l sum < l.My_rows.length :=
  Nat.mod_lt _ h

theorem eviction_index_lt (l : level) (sum clock_cycle : Nat) (hassoc : 1 ≤ l.associativity)
    (hfull : (scan (tag_of l sum) clock_cycle (blocks_at l (row_index l sum))
      0 UINT64_MAX 0).My_blocks.length = l.associativity) :
    (scan (tag_of l sum) clock_cycle (blocks_at l (row_index l sum)) 0 UINT64_MAX 0).LRU
      < (scan (tag_of l sum) clock_cycle (blocks_at l (row_index l sum))
          0 UINT64_MAX 0).My_blocks.length := by
  rw [scan_length] at hfull ⊢
  exact scan_LRU_lt _ _ _ _ (by omega)

theorem lw_walk_checked_eq (pc sum clock_cycle : Nat) (ls : List level) (n : Nat)
    (h : ∀ l ∈ ls, walkable l) :
    lw_walk_checked pc sum clock_cycle ls n = some (lw_walk pc sum clock_cycle ls n) := by
  induction ls generalizing n with
  | nil => rfl
  | cons l ls ih =>
    have hl : walkable l := h l (List.mem_cons_self _ _)
    have hls : ∀ x ∈ ls, walkable x := fun x hx => h x (List.mem_cons_of_mem _ hx)
    have hrow := row_index_lt l sum hl.1
    simp only [lw_walk_checked, lw_walk, hrow, if_true, ih (n + 1) hls]
    split
    · rfl
    · have hsafe : ¬ ((scan (tag_of l sum) clock_cycle (blocks_at l (row_index l sum))
          0 UINT64_MAX 0).My_blocks.length = l.associativity
          ∧ ¬ (scan (tag_of l sum) clock_cycle (blocks_at l (row_index l sum))
            0 UINT64_MAX 0).LRU
            < (scan (tag_of l sum) clock_cycle (blocks_at l (row_index l sum))
              0 UINT64_MAX 0).My_blocks.length) := by
        intro hbad
        exact hbad.2 (eviction_index_lt l sum clock_cycle hl.2.1 hbad.1)
      rw [if_neg hsafe]

theorem sw_walk_checked_eq (pc sum clock_cycle : Nat) (ls : List level) (n : Nat)
    (found : Bool) (h : ∀ l ∈ ls, walkable l) :
    sw_walk_checked pc sum clock_cycle ls n found
      = some (sw_walk pc sum clock_cycle ls n found) := by
  induction ls generalizing n found with
  | nil => rfl
  | cons l ls ih =>
    have hl : walkable l := h l (List.mem_cons_self _ _)
    have hls : ∀ x ∈ ls, walkable x := fun x hx => h x (List.mem_cons_of_mem _ hx)
    have hrow := row_index_lt l sum hl.1
    have hsafe : ¬ (¬ ((found || (scan (tag_of l sum) clock_cycle
          (blocks_at l (row_index l sum)) 0 UINT64_MAX 0).block_found) = true)
        ∧ (scan (tag_of l sum) clock_cycle (blocks_at l (row_index l sum))
          0 UINT64_MAX 0).My_blocks.length = l.associativity
        ∧ ¬ (scan (tag_of l sum) clock_cycle (blocks_at l (row_index l sum))
          0 UINT64_MAX 0).LRU
          < (scan (tag_of l sum) clock_cycle (blocks_at l (row_index l sum))
            0 UINT64_MAX 0).My_blocks.length) := by
      intro hbad
      exact hbad.2.2 (eviction_index_lt l sum clock_cycle hl.2.1 hbad.2.1)
    simp only [sw_walk_checked, sw_walk, hrow, if_true, ih _ _ hls, if_neg hsafe]

theorem lw_walk_walkable (pc sum clock_cycle : Nat) (ls : List level) (n : Nat)
    (h : ∀ l ∈ ls, walkable l) : ∀ l ∈ (lw_walk pc sum clock_cycle ls n).1, walkable l := by
  induction ls generalizing n with
  | nil => simp [lw_walk]
  | cons l ls ih =>
    have hl : walkable l := h l (List.mem_cons_self _ _)
    have hls : ∀ x ∈ ls, walkable x := fun x hx => h x (List.mem_cons_of_mem _ hx)
    have hcap := lw_walk_capped pc sum clock_cycle (l :: ls) n (fun x hx => (h x hx).2)
    intro x hx
    refine ⟨?_, hcap x hx⟩
    simp only [lw_walk] at hx
    split at hx
    · rcases List.mem_cons.1 hx with rfl | hx
      · simpa using hl.1
      · exact (hls x hx).1
    · rcases List.mem_cons.1 hx with rfl | hx
      · simpa using hl.1
      · exact (ih (n + 1) hls x hx).1

theorem sw_walk_walkable (pc sum clock_cycle : Nat) (ls : List level) (n : Nat) (found : Bool)
    (h : ∀ l ∈ ls, walkable l) :
    ∀ l ∈ (sw_walk pc sum clock_cycle ls n found).1, walkable l := by
  induction ls generalizing n found with
  | nil => simp [sw_walk]
  | cons l ls ih =>
    have hl : walkable l := h l (List.mem_cons_self _ _)
    have hls : ∀ x ∈ ls, walkable x := fun x hx => h x (List.mem_cons_of_mem _ hx)
    have hcap := sw_walk_capped pc sum clock_cycle (l :: ls) n found (fun x hx => (h x hx).2)
    intro x hx
    refine ⟨?_, hcap x hx⟩
    simp only [sw_walk] at hx
    rcases List.mem_cons.1 hx with rfl | hx
    · simpa using hl.1
    · exact (ih _ _ hls x hx).1

/-! ## The first level after a probe -/

theorem mem_set_self (bs : List block) (k : Nat) (b : block) (hk : k < bs.length) :
    b ∈ bs.set k b :=
  List.mem_set bs k hk b

/-- After the `lw` walk the target row of its first level holds the block
(current clock, tag of the address). -/
theorem lw_walk_head (pc sum clock_cycle : Nat) (l : level) (ls : List level) (n : Nat) :
    ∃ bs rest, (lw_walk pc sum clock_cycle (l :: ls) n).1
        = set_blocks l (row_index l sum) bs :: rest
      ∧ (⟨clock_cycle, tag_of l sum⟩ : block) ∈ bs := by
  by_cases h : ∃ b ∈ blocks_at l (row_index l sum), b.tag = tag_of l sum
  · obtain ⟨k, hk, -, -, hw⟩ := lw_walk_hit pc sum clock_cycle l ls n h
    exact ⟨_, ls, by rw [hw], mem_set_self _ _ _ hk⟩
  · have h2 : ∀ b ∈ blocks_at l (row_index l sum), b.tag ≠ tag_of l sum := by
      intro b hb hbt
      exact h ⟨b, hb, hbt⟩
    exact ⟨_, _, by rw [lw_walk_miss pc sum clock_cycle l ls n h2], by simp⟩

/-- After the `sw` walk the target row of its first level holds the block
(current clock, tag of the address). -/
theorem sw_walk_head (pc sum clock_cycle : Nat) (l : level) (ls : List level) (n : Nat) :
    ∃ bs rest, (sw_walk pc sum clock_cycle (l :: ls) n false).1
        = set_blocks l (row_index l sum) bs :: rest
      ∧ (⟨clock_cycle, tag_of l sum⟩ : block) ∈ bs := by
  by_cases h : ∃ b ∈ blocks_at l (row_index l sum), b.tag = tag_of l sum
  · obtain ⟨k, hk, -, -, hset, hfound⟩ :=
      scan_hit (tag_of l sum) clock_cycle (blocks_at l (row_index l sum)) 0 UINT64_MAX 0 h
    refine ⟨_, (sw_walk pc sum clock_cycle ls (n + 1) true).1, ?_, mem_set_self _ _ _ hk⟩
    simp [sw_walk, hfound, hset]
  · have h2 : ∀ b ∈ blocks_at l (row_index l sum), b.tag ≠ tag_of l sum := by
      intro b hb hbt
      exact h ⟨b, hb, hbt⟩
    exact ⟨_, _, by rw [sw_walk_miss pc sum clock_cycle l ls n h2], by simp⟩

theorem probe_head (l : level) (ls : List level) (write : Bool) (pc sum clock_cycle : Nat) :
    ∃ bs rest, (probe ⟨l :: ls⟩ (access_kind write pc sum clock_cycle)).My_levels
        = set_blocks l (row_index l sum) bs :: rest
      ∧ (⟨clock_cycle, tag_of l sum⟩ : block) ∈ bs := by
  cases write
  · exact lw_walk_head pc sum clock_cycle l ls 0
  · exact sw_walk_head pc sum clock_cycle l ls 0

/-- Two sums get the same row index and tag at a level exactly when they get the
same `blockID`. -/
theorem same_row_tag_iff (l : level) (sum sum' : Nat) :
    (row_index l sum = row_index l sum' ∧ tag_of l sum = tag_of l sum')
      ↔ blockID l sum = blockID l sum' := by
  constructor
  · rintro ⟨hr, ht⟩
    unfold row_index at hr
    unfold tag_of at ht
    rw [← Nat.div_add_mod (blockID l sum) l.My_rows.length,
      ← Nat.div_add_mod (blockID l sum') l.My_rows.length, hr, ht]
  · intro h
    simp [row_index, tag_of, h]

/-- In a row without repeated tags, two blocks with the same tag are at the same
index. -/
theorem nodup_tags_index (bs : List block) (h : (bs.map block.tag).Nodup) (i j : Nat)
    (b b' : block) (hi : bs[i]? = some b) (hj : bs[j]? = some b') (ht : b.tag = b'.tag) :
    i = j := by
  have hil : i < (bs.map block.tag).length := by
    rw [List.length_map]
    exact (List.getElem?_eq_some.1 hi).1
  have hjl : j < (bs.map block.tag).length := by
    rw [List.length_map]
    exact (List.getElem?_eq_some.1 hj).1
  apply (@List.Nodup.getElem_inj_iff _ _ h i hil j hjl).1
  have e1 : (bs.map block.tag)[i]? = some b.tag := by simp [List.getElem?_map, hi]
  have e2 : (bs.map block.tag)[j]? = some b'.tag := by simp [List.getElem?_map, hj]
  rw [List.getElem?_eq_getElem hil] at e1
  rw [List.getElem?_eq_getElem hjl] at e2
  injection e1 with e1
  injection e2 with e2
  rw [e1, e2, ht]

/-! ## The configuration -/

/-- A cache is built only from three or six fields. -/
theorem build_cache_arity (parts : List Nat) (c : cache) (h : build_cache parts = some c) :
    parts.length = 3 ∨ parts.length = 6 := by
  rcases parts with _ | ⟨a, _ | ⟨b, _ | ⟨c, _ | ⟨d, _ | ⟨e, _ | ⟨f, _ | ⟨g, t⟩⟩⟩⟩⟩⟩⟩ <;>
    simp [build_cache] at h ⊢

/-- Without three or six fields no cache is built. -/
theorem build_cache_bad_arity (parts : List Nat) (h3 : parts.length ≠ 3)
    (h6 : parts.length ≠ 6) : build_cache parts = none := by
  cases hb : build_cache parts with
  | none => rfl
  | some c => rcases build_cache_arity parts c hb with h | h <;> contradiction

/-- An `int` value that is not negative is itself. -/
theorem int32_eq (x : Int) (h0 : 0 ≤ x) (h : x < 2147483648) : int32 x = x := by
  unfold int32
  omega

/-- The divisor is the product when the product does not overflow. -/
theorem row_divisor_eq (assoc blocksize : Nat) (h : blocksize * assoc < 2147483648) :
    row_divisor assoc blocksize = ((blocksize * assoc : Nat) : Int) := by
  unfold row_divisor
  rw [← Nat.cast_mul]
  exact int32_eq _ (Int.ofNat_nonneg _) (by exact_mod_cast h)

/-- A positive product that does not overflow is a divisor other than 0. -/
theorem row_divisor_ne_zero (assoc blocksize : Nat) (hpos : 0 < blocksize * assoc)
    (h : blocksize * assoc < 2147483648) : row_divisor assoc blocksize ≠ 0 := by
  rw [row_divisor_eq assoc blocksize h]
  exact_mod_cast hpos.ne'

/-- The number of rows is the quotient when the product does not overflow and the
quotient fits 16 bits. -/
theorem num_of_rows_eq (size assoc blocksize : Nat) (h : blocksize * assoc < 2147483648)
    (hfit : size / (blocksize * assoc) < 65536) :
    num_of_rows size assoc blocksize = size / (blocksize * assoc) := by
  unfold num_of_rows
  rw [row_divisor_eq assoc blocksize h, ← Int.ofNat_tdiv]
  generalize size / (blocksize * assoc) = q at hfit ⊢
  unfold u16
  omega

/-- The cache of three fields. -/
theorem build_cache_one (size assoc blocksize : Nat) (hpos : 0 < blocksize * assoc)
    (h : blocksize * assoc < 2147483648) :
    build_cache [size, assoc, blocksize] = some ⟨[new_level size assoc blocksize]⟩ := by
  simp only [build_cache, if_neg (row_divisor_ne_zero assoc blocksize hpos h)]

/-- The cache of six fields. -/
theorem build_cache_two (size1 assoc1 blocksize1 size2 assoc2 blocksize2 : Nat)
    (hpos1 : 0 < blocksize1 * assoc1) (h1 : blocksize1 * assoc1 < 2147483648)
    (hpos2 : 0 < blocksize2 * assoc2) (h2 : blocksize2 * assoc2 < 2147483648) :
    build_cache [size1, assoc1, blocksize1, size2, assoc2, blocksize2]
      = some ⟨[new_level size1 assoc1 blocksize1, new_level size2 assoc2 blocksize2]⟩ := by
  have n1 := row_divisor_ne_zero assoc1 blocksize1 hpos1 h1
  have n2 := row_divisor_ne_zero assoc2 blocksize2 hpos2 h2
  simp only [build_cache, n1, n2, or_self, if_false]

/-- The configurations `4,0,1` and `0,65536,65536` have the divisor 0 (the second
by overflow of the product) and build no cache: `main` neither returns nor writes
a line.  The product `46341 * 46341` overflows to a negative divisor, and the
quotient -1 becomes 65535 rows. -/
theorem build_cache_killed :
    build_cache [4, 0, 1] = none
    ∧ build_cache [0, 65536, 65536] = none
    ∧ build_cache [4, 1, 1, 4, 1, 0] = none
    ∧ (main (some [4, 0, 1]) halt_image 1).exit_code = none
    ∧ (main (some [4, 0, 1]) halt_image 1).config = []
    ∧ (main (some [4, 0, 1]) halt_image 1).log = []
    ∧ row_divisor 46341 46341 = -2147479015
    ∧ num_of_rows 2147483647 46341 46341 = 65535 := by
  decide

/-- The run of `main` once the cache is built. -/
theorem main_built (parts : List Nat) (image : Nat → Nat) (n : Nat) (c : cache)
    (h : build_cache parts = some c) :
    main (some parts) image n
      = ⟨if (driver n (init image c)).1.halt_checker then some 0 else none, report c,
          (driver n (init image c)).1, (driver n (init image c)).2⟩ := by
  simp only [main, if_pos (build_cache_arity parts c h), h]

/-- The run of `main` with a number of fields other than three and six. -/
theorem main_bad_arity (parts : List Nat) (image : Nat → Nat) (n : Nat)
    (h3 : parts.length ≠ 3) (h6 : parts.length ≠ 6) :
    main (some parts) image n = ⟨some 1, [], init image ⟨[]⟩, []⟩ := by
  have h : ¬ (parts.length = 3 ∨ parts.length = 6) := by
    rintro (h | h) <;> contradiction
  simp only [main, if_neg h]

/-! ## Theorems -/

/-- C1: the write probe does not reach level 2 with an allocation when level 1
hits.  After `lw 10; lw 11` level 1 holds the tags 10 and 11 and level 2 only
the tag 11; the store to address 10 at clock 2 hits in level 1, writes both `SW`
lines, and leaves level 2 without any block of tag 10.  The same is seen on the
write probe alone, applied to that cache state. -/
theorem C1_store_hit_level1_skips_level2 :
    (driver 2 (init store_image store_cache)).1.My_cache
        = ⟨[⟨2, 2, 1, [⟨[⟨0, 10⟩, ⟨1, 11⟩]⟩]⟩, ⟨1, 1, 1, [⟨[⟨1, 11⟩]⟩]⟩]⟩
    ∧ (driver 2 (init store_image store_cache)).1.pc = 2
    ∧ (driver 2 (init store_image store_cache)).1.clock_cycle = 2
    ∧ (step (driver 2 (init store_image store_cache)).1).2
        = [⟨1, status.SW, 2, 10, 0⟩, ⟨2, status.SW, 2, 10, 0⟩]
    ∧ (step (driver 2 (init store_image store_cache)).1).1.My_cache
        = ⟨[⟨2, 2, 1, [⟨[⟨2, 10⟩, ⟨1, 11⟩]⟩]⟩, ⟨1, 1, 1, [⟨[⟨1, 11⟩]⟩]⟩]⟩
    ∧ write_probe ⟨[⟨2, 2, 1, [⟨[⟨0, 10⟩, ⟨1, 11⟩]⟩]⟩, ⟨1, 1, 1, [⟨[⟨1, 11⟩]⟩]⟩]⟩ 2 10 2
        = (⟨[⟨2, 2, 1, [⟨[⟨2, 10⟩, ⟨1, 11⟩]⟩]⟩, ⟨1, 1, 1, [⟨[⟨1, 11⟩]⟩]⟩]⟩,
           [⟨1, status.SW, 2, 10, 0⟩, ⟨2, status.SW, 2, 10, 0⟩]) := by
  decide

/-- C2: a `lw` whose destination register is its address register reports the
wrong address.  `lw $1,0($1)` at pc 1 with register 1 equal to 5 loads the word
100 of address 5 into register 1, and the read probe then runs for, and logs,
address 100.  `lw $0,5($0)` at pc 0 loads from address 5 and logs address 105. -/
theorem C2_lw_same_register_logs_other_address :
    (driver 1 (init alias_image alias_cache)).1.regs 1 = 5
    ∧ (driver 1 (init alias_image alias_cache)).1.pc = 1
    ∧ (step (driver 1 (init alias_image alias_cache)).1).1.regs 1 = 100
    ∧ (step (driver 1 (init alias_image alias_cache)).1).2 = [⟨1, status.MISS, 1, 100, 0⟩]
    ∧ (step (init alias_image0 alias_cache)).2 = [⟨1, status.MISS, 0, 105, 1⟩] := by
  decide

/-- C3: read stop-on-hit.  In a two-level hierarchy, when the target row of
level 1 holds a block with the level-1 tag of the address, the read probe writes
the single line `L1 HIT`; the first block of that tag, at index `k`, gets the
current clock as its stamp; the row keeps its length, every other block of the row
and every other row of level 1 are as before, and level 2 is returned as it was
given. -/
theorem C3_read_hit_level1_stops (l1 l2 : level) (pc sum clock_cycle : Nat)
    (h : ∃ b ∈ blocks_at l1 (row_index l1 sum), b.tag = tag_of l1 sum) :
    ∃ k l1', k < (blocks_at l1 (row_index l1 sum)).length
      ∧ (∃ b, (blocks_at l1 (row_index l1 sum))[k]? = some b ∧ b.tag = tag_of l1 sum)
      ∧ (∀ j b, j < k → (blocks_at l1 (row_index l1 sum))[j]? = some b → b.tag ≠ tag_of l1 sum)
      ∧ read_probe ⟨[l1, l2]⟩ pc sum clock_cycle
          = (⟨[l1', l2]⟩, [⟨1, status.HIT, pc, sum % MEM_SIZE, row_index l1 sum⟩])
      ∧ l1' = set_blocks l1 (row_index l1 sum)
                ((blocks_at l1 (row_index l1 sum)).set k ⟨clock_cycle, tag_of l1 sum⟩)
      ∧ (blocks_at l1' (row_index l1 sum))[k]? = some ⟨clock_cycle, tag_of l1 sum⟩
      ∧ (blocks_at l1' (row_index l1 sum)).length = (blocks_at l1 (row_index l1 sum)).length
      ∧ (∀ j, j ≠ k →
          (blocks_at l1' (row_index l1 sum))[j]? = (blocks_at l1 (row_index l1 sum))[j]?)
      ∧ (blocks_at l1' (row_index l1 sum)).map block.tag
          = (blocks_at l1 (row_index l1 sum)).map block.tag
      ∧ (∀ r, r ≠ row_index l1 sum → blocks_at l1' r = blocks_at l1 r)
      ∧ l1'.My_rows.length = l1.My_rows.length
      ∧ l1'.associativity = l1.associativity ∧ l1'.block_size = l1.block_size
      ∧ l1'.cache_size = l1.cache_size := by
  obtain ⟨k, hk, hkb, hfirst, hw⟩ := lw_walk_hit pc sum clock_cycle l1 [l2] 0 h
  have hrow : row_index l1 sum < l1.My_rows.length := by
    apply row_lt_of_blocks_ne_nil
    intro hnil
    rw [hnil] at hk
    simp at hk
  refine ⟨k, _, hk, hkb, hfirst, ?_, rfl, ?_, ?_, ?_, ?_, ?_, ?_, rfl, rfl, rfl⟩
  · simp [read_probe, hw]
  · rw [blocks_at_set_blocks_same _ _ _ hrow]
    exact List.getElem?_set_self hk
  · rw [blocks_at_set_blocks_same _ _ _ hrow]
    simp
  · intro j hj
    rw [blocks_at_set_blocks_same _ _ _ hrow]
    exact List.getElem?_set_ne (Ne.symm hj)
  · rw [blocks_at_set_blocks_same _ _ _ hrow]
    obtain ⟨b, hb, hbt⟩ := hkb
    apply List.ext_getElem?
    intro j
    by_cases hj : j = k
    · subst hj
      rw [List.getElem?_map, List.getElem?_map, List.getElem?_set_self hk, hb]
      simp [hbt]
    · simp [List.getElem?_map, List.getElem?_set_ne (Ne.symm hj)]
  · intro r hr
    exact blocks_at_set_blocks_other _ _ _ _ hr
  · simp [set_blocks]

/-- C3 at a full level-1 row holding the tags 10 and 11, read at address 10. -/
theorem C3_read_hit_level1_stops_witness :
    (∃ b ∈ blocks_at hit_level1 (row_index hit_level1 10), b.tag = tag_of hit_level1 10)
    ∧ (∃ k l1', k < (blocks_at hit_level1 (row_index hit_level1 10)).length
      ∧ (∃ b, (blocks_at hit_level1 (row_index hit_level1 10))[k]? = some b ∧ b.tag = tag_of hit_level1 10)
      ∧ (∀ j b, j < k → (blocks_at hit_level1 (row_index hit_level1 10))[j]? = some b → b.tag ≠ tag_of hit_level1 10)
      ∧ read_probe ⟨[hit_level1, hit_level2]⟩ 2 10 2
          = (⟨[l1', hit_level2]⟩, [⟨1, status.HIT, 2, 10 % MEM_SIZE, row_index hit_level1 10⟩])
      ∧ l1' = set_blocks hit_level1 (row_index hit_level1 10)
                ((blocks_at hit_level1 (row_index hit_level1 10)).set k ⟨2, tag_of hit_level1 10⟩)
      ∧ (blocks_at l1' (row_index hit_level1 10))[k]? = some ⟨2, tag_of hit_level1 10⟩
      ∧ (blocks_at l1' (row_index hit_level1 10)).length = (blocks_at hit_level1 (row_index hit_level1 10)).length
      ∧ (∀ j, j ≠ k →
          (blocks_at l1' (row_index hit_level1 10))[j]? = (blocks_at hit_level1 (row_index hit_level1 10))[j]?)
      ∧ (blocks_at l1' (row_index hit_level1 10)).map block.tag
          = (blocks_at hit_level1 (row_index hit_level1 10)).map block.tag
      ∧ (∀ r, r ≠ row_index hit_level1 10 → blocks_at l1' r = blocks_at hit_level1 r)
      ∧ l1'.My_rows.length = hit_level1.My_rows.length
      ∧ l1'.associativity = hit_level1.associativity ∧ l1'.block_size = hit_level1.block_size
      ∧ l1'.cache_size = hit_level1.cache_size) :=
  ⟨by decide, C3_read_hit_level1_stops hit_level1 hit_level2 2 10 2 (by decide)⟩

/-- C4: read probe on a level-1 miss.  When the target row of level 1 holds no
block with the level-1 tag, the probe writes `L1 MISS` first and the row becomes
its former blocks (less the one at the eviction index `k1` when the row held
`associativity` blocks) followed by the new block (level-1 tag, current clock).
With one level that is all.  With a second level, that level is probed with its
own row index and tag and writes exactly one line: `L2 HIT` when its row holds
its tag (the first such block is restamped), `L2 MISS` otherwise (with the same
allocation).  For any number of levels the lines are `m >= 1` misses at the levels
`1 .. m`, followed by a hit at level `m + 1` unless every level missed, all with
the pc and the address of the access.  Every level is taken with at least one
row, a positive block size and a positive associativity: the source divides by
the first two at each level it probes, and a row is full when it holds
`associativity` blocks. -/
theorem C4_read_miss_walks_down (l1 l2 : level) (ls : List level) (pc sum clock_cycle : Nat)
    (hlevels : ∀ l ∈ l1 :: l2 :: ls, 0 < l.My_rows.length ∧ 0 < l.block_size ∧ 0 < l.associativity)
    (h : ∀ b ∈ blocks_at l1 (row_index l1 sum), b.tag ≠ tag_of l1 sum) :
    ∃ k1 l1',
      l1' = set_blocks l1 (row_index l1 sum)
              ((if (blocks_at l1 (row_index l1 sum)).length = l1.associativity
                then (blocks_at l1 (row_index l1 sum)).eraseIdx k1
                else blocks_at l1 (row_index l1 sum)) ++ [⟨clock_cycle, tag_of l1 sum⟩])
      ∧ blocks_at l1' (row_index l1 sum)
          = (if (blocks_at l1 (row_index l1 sum)).length = l1.associativity
                then (blocks_at l1 (row_index l1 sum)).eraseIdx k1
                else blocks_at l1 (row_index l1 sum)) ++ [⟨clock_cycle, tag_of l1 sum⟩]
      ∧ read_probe ⟨[l1]⟩ pc sum clock_cycle
          = (⟨[l1']⟩, [⟨1, status.MISS, pc, sum % MEM_SIZE, row_index l1 sum⟩])
      ∧ ((∃ b ∈ blocks_at l2 (row_index l2 sum), b.tag = tag_of l2 sum) →
          ∃ k2, k2 < (blocks_at l2 (row_index l2 sum)).length
            ∧ (∃ b, (blocks_at l2 (row_index l2 sum))[k2]? = some b ∧ b.tag = tag_of l2 sum)
            ∧ (∀ j b, j < k2 → (blocks_at l2 (row_index l2 sum))[j]? = some b
                → b.tag ≠ tag_of l2 sum)
            ∧ read_probe ⟨[l1, l2]⟩ pc sum clock_cycle
                = (⟨[l1', set_blocks l2 (row_index l2 sum)
                        ((blocks_at l2 (row_index l2 sum)).set k2
                          ⟨clock_cycle, tag_of l2 sum⟩)]⟩,
                   [⟨1, status.MISS, pc, sum % MEM_SIZE, row_index l1 sum⟩,
                    ⟨2, status.HIT, pc, sum % MEM_SIZE, row_index l2 sum⟩]))
      ∧ ((∀ b ∈ blocks_at l2 (row_index l2 sum), b.tag ≠ tag_of l2 sum) →
          ∃ k2, read_probe ⟨[l1, l2]⟩ pc sum clock_cycle
                = (⟨[l1', set_blocks l2 (row_index l2 sum)
                        ((if (blocks_at l2 (row_index l2 sum)).length = l2.associativity
                          then (blocks_at l2 (row_index l2 sum)).eraseIdx k2
                          else blocks_at l2 (row_index l2 sum))
                            ++ [⟨clock_cycle, tag_of l2 sum⟩])]⟩,
                   [⟨1, status.MISS, pc, sum % MEM_SIZE, row_index l1 sum⟩,
                    ⟨2, status.MISS, pc, sum % MEM_SIZE, row_index l2 sum⟩]))
      ∧ (∃ m, 1 ≤ m ∧ m ≤ (l1 :: ls).length
          ∧ ((read_probe ⟨l1 :: ls⟩ pc sum clock_cycle).2).map (fun e => (e.cache_name, e.status))
              = (List.range m).map (fun i => (i + 1, status.MISS))
                  ++ (if m < (l1 :: ls).length then [(m + 1, status.HIT)] else [])
          ∧ ∀ e ∈ (read_probe ⟨l1 :: ls⟩ pc sum clock_cycle).2,
              e.pc = pc ∧ e.addr = sum % MEM_SIZE) := by
  have hrows : 0 < l1.My_rows.length := (hlevels l1 (List.mem_cons_self _ _)).1
  refine ⟨(scan (tag_of l1 sum) clock_cycle (blocks_at l1 (row_index l1 sum)) 0 UINT64_MAX 0).LRU,
    _, rfl, blocks_at_set_blocks_same _ _ _ (by simpa [row_index] using Nat.mod_lt _ hrows),
    ?_, ?_, ?_, ?_⟩
  · rw [read_probe]
    simp only [lw_walk_miss pc sum clock_cycle l1 [] 0 h]
    rfl
  · intro h2
    obtain ⟨k2, hk2, hkb, hfirst, hw⟩ := lw_walk_hit pc sum clock_cycle l2 [] 1 h2
    exact ⟨k2, hk2, hkb, hfirst, by simp [read_probe, lw_walk_miss pc sum clock_cycle l1 [l2] 0 h, hw]⟩
  · intro h2
    exact ⟨(scan (tag_of l2 sum) clock_cycle (blocks_at l2 (row_index l2 sum)) 0 UINT64_MAX 0).LRU,
      by
        rw [read_probe]
        simp only [lw_walk_miss pc sum clock_cycle l1 [l2] 0 h,
          lw_walk_miss pc sum clock_cycle l2 [] 1 h2]
        rfl⟩
  · obtain ⟨m, hm, hev, hpc⟩ := lw_walk_events pc sum clock_cycle ls 1
    refine ⟨m + 1, by omega, by simpa using hm, ?_, ?_⟩
    · simp only [read_probe, lw_walk_miss pc sum clock_cycle l1 ls 0 h, List.map_cons, hev,
        List.range_succ_eq_map, List.map_map, List.length_cons, Nat.add_lt_add_iff_right,
        List.cons_append]
      congr 1
      congr 1
      · apply List.map_congr_left
        intro i _
        simp only [Function.comp, Nat.succ_eq_add_one]
        congr 1
        omega
      · have : 1 + m + 1 = m + 1 + 1 := by omega
        rw [this]
    · simp only [read_probe, lw_walk_miss pc sum clock_cycle l1 ls 0 h]
      intro e he
      rcases List.mem_cons.1 he with rfl | he
      · exact ⟨rfl, rfl⟩
      · exact hpc e he

/-- C4 at a full level-1 row holding the tags 10 and 11, read at address 12. -/
theorem C4_read_miss_walks_down_witness :
    (∀ l ∈ hit_level1 :: hit_level2 :: [hit_level2], 0 < l.My_rows.length ∧ 0 < l.block_size ∧ 0 < l.associativity) ∧ (∀ b ∈ blocks_at hit_level1 (row_index hit_level1 12), b.tag ≠ tag_of hit_level1 12)
    ∧ (∃ k1 l1',
      l1' = set_blocks hit_level1 (row_index hit_level1 12)
              ((if (blocks_at hit_level1 (row_index hit_level1 12)).length = hit_level1.associativity
                then (blocks_at hit_level1 (row_index hit_level1 12)).eraseIdx k1
                else blocks_at hit_level1 (row_index hit_level1 12)) ++ [⟨2, tag_of hit_level1 12⟩])
      ∧ blocks_at l1' (row_index hit_level1 12)
          = (if (blocks_at hit_level1 (row_index hit_level1 12)).length = hit_level1.associativity
                then (blocks_at hit_level1 (row_index hit_level1 12)).eraseIdx k1
                else blocks_at hit_level1 (row_index hit_level1 12)) ++ [⟨2, tag_of hit_level1 12⟩]
      ∧ read_probe ⟨[hit_level1]⟩ 2 12 2
          = (⟨[l1']⟩, [⟨1, status.MISS, 2, 12 % MEM_SIZE, row_index hit_level1 12⟩])
      ∧ ((∃ b ∈ blocks_at hit_level2 (row_index hit_level2 12), b.tag = tag_of hit_level2 12) →
          ∃ k2, k2 < (blocks_at hit_level2 (row_index hit_level2 12)).length
            ∧ (∃ b, (blocks_at hit_level2 (row_index hit_level2 12))[k2]? = some b ∧ b.tag = tag_of hit_level2 12)
            ∧ (∀ j b, j < k2 → (blocks_at hit_level2 (row_index hit_level2 12))[j]? = some b
                → b.tag ≠ tag_of hit_level2 12)
            ∧ read_probe ⟨[hit_level1, hit_level2]⟩ 2 12 2
                = (⟨[l1', set_blocks hit_level2 (row_index hit_level2 12)
                        ((blocks_at hit_level2 (row_index hit_level2 12)).set k2
                          ⟨2, tag_of hit_level2 12⟩)]⟩,
                   [⟨1, status.MISS, 2, 12 % MEM_SIZE, row_index hit_level1 12⟩,
                    ⟨2, status.HIT, 2, 12 % MEM_SIZE, row_index hit_level2 12⟩]))
      ∧ ((∀ b ∈ blocks_at hit_level2 (row_index hit_level2 12), b.tag ≠ tag_of hit_level2 12) →
          ∃ k2, read_probe ⟨[hit_level1, hit_level2]⟩ 2 12 2
                = (⟨[l1', set_blocks hit_level2 (row_index hit_level2 12)
                        ((if (blocks_at hit_level2 (row_index hit_level2 12)).length = hit_level2.associativity
                          then (blocks_at hit_level2 (row_index hit_level2 12)).eraseIdx k2
                          else blocks_at hit_level2 (row_index hit_level2 12))
                            ++ [⟨2, tag_of hit_level2 12⟩])]⟩,
                   [⟨1, status.MISS, 2, 12 % MEM_SIZE, row_index hit_level1 12⟩,
                    ⟨2, status.MISS, 2, 12 % MEM_SIZE, row_index hit_level2 12⟩]))
      ∧ (∃ m, 1 ≤ m ∧ m ≤ (hit_level1 :: [hit_level2]).length
          ∧ ((read_probe ⟨hit_level1 :: [hit_level2]⟩ 2 12 2).2).map (fun e => (e.cache_name, e.status))
              = (List.range m).map (fun i => (i + 1, status.MISS))
                  ++ (if m < (hit_level1 :: [hit_level2]).length then [(m + 1, status.HIT)] else [])
          ∧ ∀ e ∈ (read_probe ⟨hit_level1 :: [hit_level2]⟩ 2 12 2).2,
              e.pc = 2 ∧ e.addr = 12 % MEM_SIZE)) :=
  ⟨by decide, by decide, C4_read_miss_walks_down hit_level1 hit_level2 [hit_level2] 2 12 2 (by decide) (by decide)⟩

/-- C5: write propagate-always.  For every cache (any number of levels, any
contents) whose levels have at least one row, a positive block size and a
positive associativity (the source divides by the first two at each level, and a
row is full when it holds `associativity` blocks), the write probe writes exactly one line
per level, in level order `L1, L2, ...`, each of kind `SW` with the pc and the
address handed to the probe and the row index of that level, which is the index
of one of its rows.  For a `sw` instruction (opcode `101`) executed in a state
`s` with such a cache, the lines of the step carry the pc of the instruction and
the address `(a + imm) mod 8192`, `a` being the value of the address register. -/
theorem C5_write_probe_one_SW_per_level (s : machine)
    (hsw : s.memory (s.pc % MEM_SIZE) >>> 13 = 0b101)
    (hlevels : ∀ l ∈ s.My_cache.My_levels, 0 < l.My_rows.length ∧ 0 < l.block_size ∧ 0 < l.associativity) :
    (∀ (c : cache) (pc sum clock_cycle : Nat),
        (∀ l ∈ c.My_levels, 0 < l.My_rows.length ∧ 0 < l.block_size ∧ 0 < l.associativity) →
        (write_probe c pc sum clock_cycle).2
            = (c.My_levels.enumFrom 1).map
                (fun p => ⟨p.1, status.SW, pc, sum % MEM_SIZE, row_index p.2 sum⟩)
          ∧ (write_probe c pc sum clock_cycle).2.length = c.My_levels.length
          ∧ (∀ e ∈ (write_probe c pc sum clock_cycle).2, e.status = status.SW)
          ∧ ∀ l ∈ c.My_levels, row_index l sum < l.My_rows.length)
    ∧ (step s).2
        = (s.My_cache.My_levels.enumFrom 1).map
            (fun p => ⟨p.1, status.SW, s.pc,
              (s.regs (regA_index (s.memory (s.pc % MEM_SIZE)))
                + imm7 (s.memory (s.pc % MEM_SIZE))) % MEM_SIZE,
              row_index p.2 (s.regs (regA_index (s.memory (s.pc % MEM_SIZE)))
                + imm7 (s.memory (s.pc % MEM_SIZE)))⟩)
    ∧ ∀ l ∈ s.My_cache.My_levels,
        row_index l (s.regs (regA_index (s.memory (s.pc % MEM_SIZE)))
          + imm7 (s.memory (s.pc % MEM_SIZE))) < l.My_rows.length := by
  have hw : ∀ (c : cache) (pc sum clock_cycle : Nat),
      (write_probe c pc sum clock_cycle).2
        = (c.My_levels.enumFrom 1).map
            (fun p => ⟨p.1, status.SW, pc, sum % MEM_SIZE, row_index p.2 sum⟩) := by
    intro c pc sum clock_cycle
    simp [write_probe, sw_walk_events]
  refine ⟨fun c pc sum clock_cycle hc => ⟨hw c pc sum clock_cycle, ?_, ?_,
    fun l hl => row_index_lt l sum (hc l hl).1⟩, ?_, fun l hl => row_index_lt l _ (hlevels l hl).1⟩
  · rw [hw]
    simp
  · rw [hw]
    intro e he
    obtain ⟨p, -, rfl⟩ := List.mem_map.1 he
    rfl
  · have h5 : s.memory (s.pc % MEM_SIZE) >>> 13 = 5 := hsw
    have h56 : ¬ ((5 : Nat) &&& 6 = 2) := by decide
    simp only [step, exec_instr, h5]
    simp [hw, h56]

/-- C5 at the `sw $1,10($0)` of `store_image`, executed at pc 2. -/
theorem C5_write_probe_one_SW_per_level_witness :
    (store_state.memory (store_state.pc % MEM_SIZE) >>> 13 = 0b101) ∧ (∀ l ∈ store_state.My_cache.My_levels, 0 < l.My_rows.length ∧ 0 < l.block_size ∧ 0 < l.associativity)
    ∧ ((∀ (c : cache) (pc sum clock_cycle : Nat),
        (∀ l ∈ c.My_levels, 0 < l.My_rows.length ∧ 0 < l.block_size ∧ 0 < l.associativity) →
        (write_probe c pc sum clock_cycle).2
            = (c.My_levels.enumFrom 1).map
                (fun p => ⟨p.1, status.SW, pc, sum % MEM_SIZE, row_index p.2 sum⟩)
          ∧ (write_probe c pc sum clock_cycle).2.length = c.My_levels.length
          ∧ (∀ e ∈ (write_probe c pc sum clock_cycle).2, e.status = status.SW)
          ∧ ∀ l ∈ c.My_levels, row_index l sum < l.My_rows.length)
    ∧ (step store_state).2
        = (store_state.My_cache.My_levels.enumFrom 1).map
            (fun p => ⟨p.1, status.SW, store_state.pc,
              (store_state.regs (regA_index (store_state.memory (store_state.pc % MEM_SIZE)))
                + imm7 (store_state.memory (store_state.pc % MEM_SIZE))) % MEM_SIZE,
              row_index p.2 (store_state.regs (regA_index (store_state.memory (store_state.pc % MEM_SIZE)))
                + imm7 (store_state.memory (store_state.pc % MEM_SIZE)))⟩)
    ∧ ∀ l ∈ store_state.My_cache.My_levels,
        row_index l (store_state.regs (regA_index (store_state.memory (store_state.pc % MEM_SIZE)))
          + imm7 (store_state.memory (store_state.pc % MEM_SIZE))) < l.My_rows.length) :=
  ⟨by decide, by decide, C5_write_probe_one_SW_per_level store_state (by decide) (by decide)⟩

/-- C6: capacity invariant.  From a hierarchy whose rows are all empty and whose
levels have associativity at least 1 and at least one row, after any sequence of
read and write probes every row of every level holds at most `associativity`
blocks. -/
theorem C6_capacity_invariant (c : cache) (accesses : List access)
    (hempty : ∀ l ∈ c.My_levels, ∀ r ∈ l.My_rows, r.My_blocks = [])
    (hlevels : ∀ l ∈ c.My_levels, 1 ≤ l.associativity ∧ 1 ≤ l.My_rows.length) :
    ∀ l ∈ (probes c accesses).My_levels, ∀ r ∈ l.My_rows,
      r.My_blocks.length ≤ l.associativity := by
  have h0 : ∀ l ∈ c.My_levels, capped l := by
    intro l hl
    refine ⟨(hlevels l hl).1, ?_⟩
    intro r hr
    rw [hempty l hl r hr]
    exact Nat.zero_le _
  intro l hl
  exact (probes_capped c accesses h0 l hl).2

/-- C6 at the hierarchy `2,2,1,1,1,1` after two reads and one write. -/
theorem C6_capacity_invariant_witness :
    (∀ l ∈ store_cache.My_levels, ∀ r ∈ l.My_rows, r.My_blocks = []) ∧ (∀ l ∈ store_cache.My_levels, 1 ≤ l.associativity ∧ 1 ≤ l.My_rows.length)
    ∧ (∀ l ∈ (probes store_cache [access.lw 0 10 0, access.lw 1 11 1, access.sw 2 10 2]).My_levels, ∀ r ∈ l.My_rows,
      r.My_blocks.length ≤ l.associativity) :=
  ⟨by decide, by decide, C6_capacity_invariant store_cache [access.lw 0 10 0, access.lw 1 11 1, access.sw 2 10 2] (by decide) (by decide)⟩

/-- C7: LRU scenario.  In a one-level hierarchy of associativity 2, four read
probes at strictly increasing clocks `c1 < c2 < c3 < c4` (16-bit clock values) to
addresses of one row `r`, empty at the start, with the tags `A, B, A, C`,
pairwise distinct: the first two miss and fill the row with `A` then `B`; the
third hits and restamps `A`; the fourth misses, and the row goes from
`[(c3, A), (c2, B)]` to `[(c3, A), (c4, C)]`: `B` is evicted, `A` is kept.  The
level goes through the same states when any of the four probes is a write
probe. -/
theorem C7_lru_scenario (l : level) (r A B C pc1 pc2 pc3 pc4 s1 s2 s3 s4 c1 c2 c3 c4 : Nat)
    (hassoc : l.associativity = 2)
    (hrows : 0 < l.My_rows.length)
    (hempty : blocks_at l r = [])
    (h1 : row_index l s1 = r ∧ tag_of l s1 = A)
    (h2 : row_index l s2 = r ∧ tag_of l s2 = B)
    (h3 : row_index l s3 = r ∧ tag_of l s3 = A)
    (h4 : row_index l s4 = r ∧ tag_of l s4 = C)
    (hAB : A ≠ B) (hAC : A ≠ C) (hBC : B ≠ C)
    (hclock : c1 < c2 ∧ c2 < c3 ∧ c3 < c4 ∧ c4 < 65536) :
    ∃ t1 t2 t3 t4 : level,
      read_probe ⟨[l]⟩ pc1 s1 c1 = (⟨[t1]⟩, [⟨1, status.MISS, pc1, s1 % MEM_SIZE, r⟩])
      ∧ blocks_at t1 r = [⟨c1, A⟩]
      ∧ read_probe ⟨[t1]⟩ pc2 s2 c2 = (⟨[t2]⟩, [⟨1, status.MISS, pc2, s2 % MEM_SIZE, r⟩])
      ∧ blocks_at t2 r = [⟨c1, A⟩, ⟨c2, B⟩]
      ∧ read_probe ⟨[t2]⟩ pc3 s3 c3 = (⟨[t3]⟩, [⟨1, status.HIT, pc3, s3 % MEM_SIZE, r⟩])
      ∧ blocks_at t3 r = [⟨c3, A⟩, ⟨c2, B⟩]
      ∧ read_probe ⟨[t3]⟩ pc4 s4 c4 = (⟨[t4]⟩, [⟨1, status.MISS, pc4, s4 % MEM_SIZE, r⟩])
      ∧ blocks_at t4 r = [⟨c3, A⟩, ⟨c4, C⟩]
      ∧ ∀ w1 w2 w3 w4 : Bool,
          probes ⟨[l]⟩ [access_kind w1 pc1 s1 c1, access_kind w2 pc2 s2 c2,
            access_kind w3 pc3 s3 c3] = ⟨[t3]⟩
          ∧ probes ⟨[l]⟩ [access_kind w1 pc1 s1 c1, access_kind w2 pc2 s2 c2,
              access_kind w3 pc3 s3 c3, access_kind w4 pc4 s4 c4] = ⟨[t4]⟩ := by
  obtain ⟨hr1, ht1⟩ := h1
  obtain ⟨hr2, ht2⟩ := h2
  obtain ⟨hr3, ht3⟩ := h3
  obtain ⟨hr4, ht4⟩ := h4
  have hr : r < l.My_rows.length := by
    rw [← hr1]
    exact Nat.mod_lt _ hrows
  have hc3 : c3 < UINT64_MAX := by
    unfold UINT64_MAX
    omega
  have hc23 : c2 < c3 := hclock.2.1
  have e1 : read_probe ⟨[l]⟩ pc1 s1 c1
      = (⟨[set_blocks l r [⟨c1, A⟩]]⟩, [⟨1, status.MISS, pc1, s1 % MEM_SIZE, r⟩]) := by
    rw [read_probe_single]
    simp [hr1, ht1, hempty, scan, allocate, hassoc]
  have e2 : read_probe ⟨[set_blocks l r [⟨c1, A⟩]]⟩ pc2 s2 c2
      = (⟨[set_blocks (set_blocks l r [⟨c1, A⟩]) r [⟨c1, A⟩, ⟨c2, B⟩]]⟩,
          [⟨1, status.MISS, pc2, s2 % MEM_SIZE, r⟩]) := by
    rw [read_probe_single]
    simp [hr2, ht2, blocks_at_set_blocks_same _ _ _ hr, scan, allocate, hassoc, hAB]
  have e3 : read_probe ⟨[set_blocks (set_blocks l r [⟨c1, A⟩]) r [⟨c1, A⟩, ⟨c2, B⟩]]⟩ pc3 s3 c3
      = (⟨[set_blocks (set_blocks (set_blocks l r [⟨c1, A⟩]) r [⟨c1, A⟩, ⟨c2, B⟩]) r
            [⟨c3, A⟩, ⟨c2, B⟩]]⟩, [⟨1, status.HIT, pc3, s3 % MEM_SIZE, r⟩]) := by
    rw [read_probe_single]
    simp [hr3, ht3, blocks_at_set_blocks_same, hr, scan]
  have e4 : read_probe ⟨[set_blocks (set_blocks (set_blocks l r [⟨c1, A⟩]) r
        [⟨c1, A⟩, ⟨c2, B⟩]) r [⟨c3, A⟩, ⟨c2, B⟩]]⟩ pc4 s4 c4
      = (⟨[set_blocks (set_blocks (set_blocks (set_blocks l r [⟨c1, A⟩]) r
            [⟨c1, A⟩, ⟨c2, B⟩]) r [⟨c3, A⟩, ⟨c2, B⟩]) r [⟨c3, A⟩, ⟨c4, C⟩]]⟩,
          [⟨1, status.MISS, pc4, s4 % MEM_SIZE, r⟩]) := by
    rw [read_probe_single]
    simp [hr4, ht4, blocks_at_set_blocks_same, hr, scan, allocate, hassoc, hAC, hBC, hc3, hc23]
  refine ⟨_, _, _, _, e1, ?_, e2, ?_, e3, ?_, e4, ?_, ?_⟩
  · exact blocks_at_set_blocks_same _ _ _ hr
  · exact blocks_at_set_blocks_same _ _ _ (by simpa using hr)
  · exact blocks_at_set_blocks_same _ _ _ (by simpa using hr)
  · exact blocks_at_set_blocks_same _ _ _ (by simpa using hr)
  · intro w1 w2 w3 w4
    simp only [probes, List.foldl, probe_single, e1, e2, e3, e4, and_self]

/-- C7 at a level of two rows: the addresses 0, 2, 0, 4 of row 0 at the clocks 0, 1, 2, 3. -/
theorem C7_lru_scenario_witness :
    (lru_level.associativity = 2) ∧ (0 < lru_level.My_rows.length) ∧ (blocks_at lru_level 0 = []) ∧ (row_index lru_level 0 = 0 ∧ tag_of lru_level 0 = 0) ∧ (row_index lru_level 2 = 0 ∧ tag_of lru_level 2 = 1) ∧ (row_index lru_level 0 = 0 ∧ tag_of lru_level 0 = 0) ∧ (row_index lru_level 4 = 0 ∧ tag_of lru_level 4 = 2) ∧ (0 ≠ 1) ∧ (0 ≠ 2) ∧ (1 ≠ 2) ∧ (0 < 1 ∧ 1 < 2 ∧ 2 < 3 ∧ 3 < 65536)
    ∧ (∃ t1 t2 t3 t4 : level,
      read_probe ⟨[lru_level]⟩ 0 0 0 = (⟨[t1]⟩, [⟨1, status.MISS, 0, 0 % MEM_SIZE, 0⟩])
      ∧ blocks_at t1 0 = [⟨0, 0⟩]
      ∧ read_probe ⟨[t1]⟩ 1 2 1 = (⟨[t2]⟩, [⟨1, status.MISS, 1, 2 % MEM_SIZE, 0⟩])
      ∧ blocks_at t2 0 = [⟨0, 0⟩, ⟨1, 1⟩]
      ∧ read_probe ⟨[t2]⟩ 2 0 2 = (⟨[t3]⟩, [⟨1, status.HIT, 2, 0 % MEM_SIZE, 0⟩])
      ∧ blocks_at t3 0 = [⟨2, 0⟩, ⟨1, 1⟩]
      ∧ read_probe ⟨[t3]⟩ 3 4 3 = (⟨[t4]⟩, [⟨1, status.MISS, 3, 4 % MEM_SIZE, 0⟩])
      ∧ blocks_at t4 0 = [⟨2, 0⟩, ⟨3, 2⟩]
      ∧ ∀ w1 w2 w3 w4 : Bool,
          probes ⟨[lru_level]⟩ [access_kind w1 0 0 0, access_kind w2 1 2 1,
            access_kind w3 2 0 2] = ⟨[t3]⟩
          ∧ probes ⟨[lru_level]⟩ [access_kind w1 0 0 0, access_kind w2 1 2 1,
              access_kind w3 2 0 2, access_kind w4 3 4 3] = ⟨[t4]⟩) :=
  ⟨by decide, by decide, by decide, by decide, by decide, by decide, by decide, by decide, by decide, by decide, by decide, C7_lru_scenario lru_level 0 0 1 2 0 1 2 3 0 2 0 4 0 1 2 3 (by decide) (by decide) (by decide) (by decide) (by decide) (by decide) (by decide) (by decide) (by decide) (by decide) (by decide)⟩

/-- C8: direct-mapped alternation.  In a one-level hierarchy of associativity 1
whose rows are all empty, for two addresses `a` and `b` of the same row with
different tags, the `n`-th read probe of the alternation `a, b, a, b, ...` (for
every `n`, with any pcs and clocks) writes the single line `L1 MISS`, and after
it the row holds exactly the block just accessed. -/
theorem C8_direct_mapped_alternation (l : level) (a b : Nat) (pc clock_cycle : Nat → Nat)
    (n : Nat) (hassoc : l.associativity = 1) (hrows : 0 < l.My_rows.length)
    (hempty : ∀ r ∈ l.My_rows, r.My_blocks = [])
    (hrow : row_index l a = row_index l b) (htag : tag_of l a ≠ tag_of l b) :
    (read_probe (alternating_cache l a b pc clock_cycle n) (pc n) (alternation a b n)
        (clock_cycle n)).2
      = [⟨1, status.MISS, pc n, alternation a b n % MEM_SIZE, row_index l a⟩]
    ∧ ∃ t, alternating_cache l a b pc clock_cycle (n + 1) = ⟨[t]⟩
        ∧ blocks_at t (row_index l a) = [⟨clock_cycle n, tag_of l (alternation a b n)⟩] := by
  obtain ⟨hc, hev⟩ :=
    alternating_cache_invariant l a b pc clock_cycle hassoc hrows hempty hrow htag n
  exact ⟨hev, _, hc, blocks_at_set_blocks_same _ _ _ (Nat.mod_lt _ hrows)⟩

/-- C8 at a level of four rows: the addresses 0 and 4 of row 0, fourth probe. -/
theorem C8_direct_mapped_alternation_witness :
    (direct_level.associativity = 1) ∧ (0 < direct_level.My_rows.length) ∧ (∀ r ∈ direct_level.My_rows, r.My_blocks = []) ∧ (row_index direct_level 0 = row_index direct_level 4) ∧ (tag_of direct_level 0 ≠ tag_of direct_level 4)
    ∧ ((read_probe (alternating_cache direct_level 0 4 (fun i => i) (fun i => i) 3) ((fun i => i) 3) (alternation 0 4 3)
        ((fun i => i) 3)).2
      = [⟨1, status.MISS, (fun i => i) 3, alternation 0 4 3 % MEM_SIZE, row_index direct_level 0⟩]
    ∧ ∃ t, alternating_cache direct_level 0 4 (fun i => i) (fun i => i) (3 + 1) = ⟨[t]⟩
        ∧ blocks_at t (row_index direct_level 0) = [⟨(fun i => i) 3, tag_of direct_level (alternation 0 4 3)⟩]) :=
  ⟨by decide, by decide, by decide, by decide, by decide, C8_direct_mapped_alternation direct_level 0 4 (fun i => i) (fun i => i) 3 (by decide) (by decide) (by decide) (by decide) (by decide)⟩

/-- C9: register 0 invariant.  Whatever the memory image and the cache, register 0
holds 0 in every state the driver loop reaches from the initial state, that is at
the start of every instruction; and one iteration of the loop leaves 0 in
register 0 from any state, whatever the instruction wrote. -/
theorem C9_register0_invariant (image : Nat → Nat) (c : cache) (n : Nat) :
    (driver n (init image c)).1.regs 0 = 0 ∧ ∀ s : machine, (step s).1.regs 0 = 0 :=
  ⟨driver_regs_zero n (init image c) rfl, step_regs_zero⟩

/-- C10: halt condition.  From a running state, one iteration of the loop sets
`halt_checker` if and only if the word at `memory[pc mod 8192]` has opcode `010`
(`j`) and its 13-bit immediate equals the current pc; the pc is then unchanged.
When the pc is 2 and `memory[2]` is `j 2`, the driver stops after that one
iteration, halted, with pc 2. -/
theorem C10_halt_condition (s : machine) (hrun : s.halt_checker = false) :
    ((step s).1.halt_checker = true
        ↔ (s.memory (s.pc % MEM_SIZE) >>> 13 = 0b010 ∧ imm13 (s.memory (s.pc % MEM_SIZE)) = s.pc))
    ∧ ((step s).1.halt_checker = true → (step s).1.pc = s.pc)
    ∧ (s.pc = 2 → s.memory 2 = 0b0100000000000010 →
        ∀ n, driver (n + 1) s = step s ∧ (step s).1.halt_checker = true ∧ (step s).1.pc = 2
          ∧ (step s).2 = []) := by
  obtain ⟨hiff, hpc⟩ := step_halt_iff s hrun
  refine ⟨hiff, hpc, ?_⟩
  intro hpc2 hmem n
  have hw : s.memory (s.pc % MEM_SIZE) = 0b0100000000000010 := by
    rw [hpc2]
    exact hmem
  have hop : s.memory (s.pc % MEM_SIZE) >>> 13 = 0b010 := by
    rw [hw]
    decide
  have himm : imm13 (s.memory (s.pc % MEM_SIZE)) = s.pc := by
    rw [hw, hpc2]
    decide
  have hhalt : (step s).1.halt_checker = true := hiff.2 ⟨hop, himm⟩
  have hev : (step s).2 = [] := by
    simp only [step, exec_instr_j s hop]
  refine ⟨?_, hhalt, ?_, hev⟩
  · simp only [driver, hrun, driver_halted n _ hhalt, hev]
    exact Prod.ext rfl (by simp [hev])
  · rw [hpc hhalt, hpc2]

/-- C10 at a running state with pc 2 and `j 2` at address 2. -/
theorem C10_halt_condition_witness :
    (halt_state.halt_checker = false)
    ∧ (((step halt_state).1.halt_checker = true
        ↔ (halt_state.memory (halt_state.pc % MEM_SIZE) >>> 13 = 0b010 ∧ imm13 (halt_state.memory (halt_state.pc % MEM_SIZE)) = halt_state.pc))
    ∧ ((step halt_state).1.halt_checker = true → (step halt_state).1.pc = halt_state.pc)
    ∧ (halt_state.pc = 2 → halt_state.memory 2 = 0b0100000000000010 →
        ∀ n, driver (n + 1) halt_state = step halt_state ∧ (step halt_state).1.halt_checker = true ∧ (step halt_state).1.pc = 2
          ∧ (step halt_state).2 = [])) :=
  ⟨by decide, C10_halt_condition halt_state (by decide)⟩

/-- C11: sign extension and `addi`.  For an `addi` (opcode `001`) with 7-bit
immediate field `v` and address-register value `a`, the sign-extended immediate
is `v` when `v < 64` and `v + 65408` when `v >= 64`, and the instruction writes
`(a + s) mod 65536` to the destination register; the iteration then resets
register 0.  With field `0b1111111` and `a = 5` the value written is 4. -/
theorem C11_addi_sign_extension (s : machine) (w v a : Nat)
    (hw : w = s.memory (s.pc % MEM_SIZE)) (hop : w >>> 13 = 0b001)
    (hv : v = w &&& 0b1111111) (ha : a = s.regs (regA_index w)) :
    v < 128
    ∧ imm7 w = (if v < 64 then v else v + 65408)
    ∧ (exec_instr s).1.regs
        = store s.regs (regB_index w) ((a + (if v < 64 then v else v + 65408)) % 65536)
    ∧ (step s).1.regs
        = store (store s.regs (regB_index w)
            ((a + (if v < 64 then v else v + 65408)) % 65536)) 0 0
    ∧ (v = 0b1111111 → a = 5 → (exec_instr s).1.regs (regB_index w) = 4) := by
  subst hw hv ha
  have himm := imm7_eq (s.memory (s.pc % MEM_SIZE))
  have hex := exec_instr_addi s hop
  refine ⟨and_127_lt _, himm, ?_, ?_, ?_⟩
  · rw [hex, ← himm]
  · simp only [step, hex, ← himm]
  · intro hv ha
    rw [hex]
    simp only [store, if_true]
    rw [ha, himm, hv]
    decide

/-- C11 at `addi $1,$2,-1` with register 2 equal to 5. -/
theorem C11_addi_sign_extension_witness :
    (0b0010100011111111 = addi_state.memory (addi_state.pc % MEM_SIZE)) ∧ (0b0010100011111111 >>> 13 = 0b001) ∧ (0b1111111 = 0b0010100011111111 &&& 0b1111111) ∧ (5 = addi_state.regs (regA_index 0b0010100011111111))
    ∧ (0b1111111 < 128
    ∧ imm7 0b0010100011111111 = (if 0b1111111 < 64 then 0b1111111 else 0b1111111 + 65408)
    ∧ (exec_instr addi_state).1.regs
        = store addi_state.regs (regB_index 0b0010100011111111) ((5 + (if 0b1111111 < 64 then 0b1111111 else 0b1111111 + 65408)) % 65536)
    ∧ (step addi_state).1.regs
        = store (store addi_state.regs (regB_index 0b0010100011111111)
            ((5 + (if 0b1111111 < 64 then 0b1111111 else 0b1111111 + 65408)) % 65536)) 0 0
    ∧ (0b1111111 = 0b1111111 → 5 = 5 → (exec_instr addi_state).1.regs (regB_index 0b0010100011111111) = 4)) :=
  ⟨by decide, by decide, by decide, by decide, C11_addi_sign_extension addi_state 0b0010100011111111 0b1111111 5 (by decide) (by decide) (by decide) (by decide)⟩

/-- C12, as stated, fails: the configuration `5,1,2`, whose size 5 is not divisible
by `2 * 1`, is not rejected.  The level is built with 2 rows and reported, the
program runs (here one instruction, a halting `j 0`) and `main` returns 0. -/
theorem C12_indivisible_size_accepted :
    ¬ (2 * 1 ∣ 5)
    ∧ build_cache [5, 1, 2] = some ⟨[⟨5, 1, 2, [⟨[]⟩, ⟨[]⟩]⟩]⟩
    ∧ (main (some [5, 1, 2]) halt_image 1).exit_code = some 0
    ∧ (main (some [5, 1, 2]) halt_image 1).config = [⟨1, 5, 1, 2, 2⟩]
    ∧ (main (some [5, 1, 2]) halt_image 1).final.halt_checker = true
    ∧ (main (some [5, 1, 2]) halt_image 1).final.clock_cycle = 1 := by
  decide

/-- C12, amended: a configuration whose number of fields is neither 3 nor 6 is
rejected (exit code 1, no configuration line, no instruction run, no log line).
Divisibility is not checked: a configuration of 3 or 6 fields whose levels have
positive associativity and block size, a size below `2^31`, and at least one and
fewer than 65536 rows (`blocksize * assoc <= size`,
`size / (blocksize * assoc) < 65536`) is not rejected, whether or not the size is
divisible by `blocksize * assoc`: each level is built with the quotient
`size / (blocksize * assoc)` of the integer division as its number of rows, all
empty, the levels are reported, and the loop runs. -/
theorem C12_only_arity_rejected (size1 assoc1 blocksize1 size2 assoc2 blocksize2 : Nat)
    (image : Nat → Nat) (n : Nat)
    (h1 : 0 < assoc1 ∧ 0 < blocksize1 ∧ size1 < 2147483648 ∧ blocksize1 * assoc1 ≤ size1
      ∧ size1 / (blocksize1 * assoc1) < 65536)
    (h2 : 0 < assoc2 ∧ 0 < blocksize2 ∧ size2 < 2147483648 ∧ blocksize2 * assoc2 ≤ size2
      ∧ size2 / (blocksize2 * assoc2) < 65536) :
    (∀ parts : List Nat, parts.length ≠ 3 → parts.length ≠ 6 →
        main (some parts) image n = ⟨some 1, [], init image ⟨[]⟩, []⟩)
    ∧ new_level size1 assoc1 blocksize1
        = ⟨size1, assoc1, blocksize1, List.replicate (size1 / (blocksize1 * assoc1)) ⟨[]⟩⟩
    ∧ new_level size2 assoc2 blocksize2
        = ⟨size2, assoc2, blocksize2, List.replicate (size2 / (blocksize2 * assoc2)) ⟨[]⟩⟩
    ∧ 0 < size1 / (blocksize1 * assoc1) ∧ 0 < size2 / (blocksize2 * assoc2)
    ∧ main (some [size1, assoc1, blocksize1]) image n
        = ⟨if (driver n (init image ⟨[new_level size1 assoc1 blocksize1]⟩)).1.halt_checker
            then some 0 else none,
           [⟨1, size1, assoc1, blocksize1, size1 / (blocksize1 * assoc1)⟩],
           (driver n (init image ⟨[new_level size1 assoc1 blocksize1]⟩)).1,
           (driver n (init image ⟨[new_level size1 assoc1 blocksize1]⟩)).2⟩
    ∧ main (some [size1, assoc1, blocksize1, size2, assoc2, blocksize2]) image n
        = ⟨if (driver n (init image
              ⟨[new_level size1 assoc1 blocksize1,
                new_level size2 assoc2 blocksize2]⟩)).1.halt_checker
            then some 0 else none,
           [⟨1, size1, assoc1, blocksize1, size1 / (blocksize1 * assoc1)⟩,
            ⟨2, size2, assoc2, blocksize2, size2 / (blocksize2 * assoc2)⟩],
           (driver n (init image
              ⟨[new_level size1 assoc1 blocksize1, new_level size2 assoc2 blocksize2]⟩)).1,
           (driver n (init image
              ⟨[new_level size1 assoc1 blocksize1, new_level size2 assoc2 blocksize2]⟩)).2⟩
    ∧ (main (some [size1, assoc1, blocksize1]) image n).exit_code ≠ some 1
    ∧ (main (some [size1, assoc1, blocksize1, size2, assoc2, blocksize2]) image n).exit_code
        ≠ some 1 := by
  obtain ⟨ha1, hb1, hs1, hle1, hfit1⟩ := h1
  obtain ⟨ha2, hb2, hs2, hle2, hfit2⟩ := h2
  have hpos1 : 0 < blocksize1 * assoc1 := Nat.mul_pos hb1 ha1
  have hpos2 : 0 < blocksize2 * assoc2 := Nat.mul_pos hb2 ha2
  have hp1 : blocksize1 * assoc1 < 2147483648 := lt_of_le_of_lt hle1 hs1
  have hp2 : blocksize2 * assoc2 < 2147483648 := lt_of_le_of_lt hle2 hs2
  have hr1 := num_of_rows_eq size1 assoc1 blocksize1 hp1 hfit1
  have hr2 := num_of_rows_eq size2 assoc2 blocksize2 hp2 hfit2
  have hm1 := main_built _ image n _ (build_cache_one size1 assoc1 blocksize1 hpos1 hp1)
  have hm2 := main_built _ image n _
    (build_cache_two size1 assoc1 blocksize1 size2 assoc2 blocksize2 hpos1 hp1 hpos2 hp2)
  have hrep1 : report ⟨[new_level size1 assoc1 blocksize1]⟩
      = [⟨1, size1, assoc1, blocksize1, size1 / (blocksize1 * assoc1)⟩] := by
    simp [report, new_level, hr1, List.enumFrom]
  have hrep2 : report ⟨[new_level size1 assoc1 blocksize1, new_level size2 assoc2 blocksize2]⟩
      = [⟨1, size1, assoc1, blocksize1, size1 / (blocksize1 * assoc1)⟩,
         ⟨2, size2, assoc2, blocksize2, size2 / (blocksize2 * assoc2)⟩] := by
    simp [report, new_level, hr1, hr2, List.enumFrom]
  rw [hrep1] at hm1
  rw [hrep2] at hm2
  refine ⟨fun parts h3 h6 => main_bad_arity parts image n h3 h6, ?_, ?_,
    Nat.div_pos hle1 hpos1, Nat.div_pos hle2 hpos2, hm1, hm2, ?_, ?_⟩
  · simp only [new_level, hr1]
  · simp only [new_level, hr2]
  · rw [hm1]
    show (if _ then some 0 else none) ≠ some 1
    split <;> simp
  · rw [hm2]
    show (if _ then some 0 else none) ≠ some 1
    split <;> simp

/-- C12, amended, at the configurations `5,1,2` and `5,1,2,7,2,2`, whose sizes are
not divisible, with the halting program `j 0`. -/
theorem C12_only_arity_rejected_witness :
    (0 < 1 ∧ 0 < 2 ∧ 5 < 2147483648 ∧ 2 * 1 ≤ 5
      ∧ 5 / (2 * 1) < 65536) ∧ (0 < 2 ∧ 0 < 2 ∧ 7 < 2147483648 ∧ 2 * 2 ≤ 7
      ∧ 7 / (2 * 2) < 65536)
    ∧ ((∀ parts : List Nat, parts.length ≠ 3 → parts.length ≠ 6 →
        main (some parts) halt_image 1 = ⟨some 1, [], init halt_image ⟨[]⟩, []⟩)
    ∧ new_level 5 1 2
        = ⟨5, 1, 2, List.replicate (5 / (2 * 1)) ⟨[]⟩⟩
    ∧ new_level 7 2 2
        = ⟨7, 2, 2, List.replicate (7 / (2 * 2)) ⟨[]⟩⟩
    ∧ 0 < 5 / (2 * 1) ∧ 0 < 7 / (2 * 2)
    ∧ main (some [5, 1, 2]) halt_image 1
        = ⟨if (driver 1 (init halt_image ⟨[new_level 5 1 2]⟩)).1.halt_checker
            then some 0 else none,
           [⟨1, 5, 1, 2, 5 / (2 * 1)⟩],
           (driver 1 (init halt_image ⟨[new_level 5 1 2]⟩)).1,
           (driver 1 (init halt_image ⟨[new_level 5 1 2]⟩)).2⟩
    ∧ main (some [5, 1, 2, 7, 2, 2]) halt_image 1
        = ⟨if (driver 1 (init halt_image
              ⟨[new_level 5 1 2,
                new_level 7 2 2]⟩)).1.halt_checker
            then some 0 else none,
           [⟨1, 5, 1, 2, 5 / (2 * 1)⟩,
            ⟨2, 7, 2, 2, 7 / (2 * 2)⟩],
           (driver 1 (init halt_image
              ⟨[new_level 5 1 2, new_level 7 2 2]⟩)).1,
           (driver 1 (init halt_image
              ⟨[new_level 5 1 2, new_level 7 2 2]⟩)).2⟩
    ∧ (main (some [5, 1, 2]) halt_image 1).exit_code ≠ some 1
    ∧ (main (some [5, 1, 2, 7, 2, 2]) halt_image 1).exit_code
        ≠ some 1) :=
  ⟨by decide, by decide, C12_only_arity_rejected 5 1 2 7 2 2 halt_image 1 (by decide) (by decide)⟩

/-- C13, as stated, fails: without a cache configuration the program
`addi $1,$0,5; j 1` is not executed (`main` returns 0 with pc 0 and register 1
equal to 0), while with the configuration `4,1,1` it runs to its halt with pc 1
and register 1 equal to 5. -/
theorem C13_no_cache_differs :
    (main none addi_halt_image 2).exit_code = some 0
    ∧ (main none addi_halt_image 2).final.pc = 0
    ∧ (main none addi_halt_image 2).final.regs 1 = 0
    ∧ (main none addi_halt_image 2).final.halt_checker = false
    ∧ (main (some [4, 1, 1]) addi_halt_image 2).exit_code = some 0
    ∧ (main (some [4, 1, 1]) addi_halt_image 2).final.pc = 1
    ∧ (main (some [4, 1, 1]) addi_halt_image 2).final.regs 1 = 5
    ∧ (main (some [4, 1, 1]) addi_halt_image 2).final.halt_checker = true := by
  decide

/-- C13, amended: without a cache configuration `main` executes no instruction
and writes no line: it returns 0 with pc 0, every register 0 and the memory equal
to the image, for every image.  On a hierarchy of zero levels the two probes
write nothing and change nothing, and an iteration of the loop writes no line;
the loop is only entered when a configuration is given. -/
theorem C13_no_cache_no_execution (image : Nat → Nat) (n : Nat) :
    main none image n = ⟨some 0, [], init image ⟨[]⟩, []⟩
    ∧ (main none image n).exit_code = some 0
    ∧ (main none image n).final.pc = 0
    ∧ (∀ i, (main none image n).final.regs i = 0)
    ∧ (main none image n).final.memory = image
    ∧ (main none image n).final.halt_checker = false
    ∧ (main none image n).final.clock_cycle = 0
    ∧ (main none image n).log = []
    ∧ (main none image n).config = []
    ∧ (∀ pc sum clock_cycle,
        read_probe ⟨[]⟩ pc sum clock_cycle = (⟨[]⟩, [])
          ∧ write_probe ⟨[]⟩ pc sum clock_cycle = (⟨[]⟩, []))
    ∧ (∀ s : machine, (step { s with My_cache := ⟨[]⟩ }).2 = []
        ∧ (step { s with My_cache := ⟨[]⟩ }).1.My_cache = ⟨[]⟩) := by
  refine ⟨rfl, rfl, rfl, fun _ => rfl, rfl, rfl, rfl, rfl, rfl, fun _ _ _ => ⟨rfl, rfl⟩, ?_⟩
  intro s
  simp only [step, exec_instr]
  split_ifs <;> exact ⟨rfl, rfl⟩

/-- C14: the clock wraps.  In the run of `wrap_image` with the configuration
`1,1,1` (a `lw` of address 0 every 8192 instructions, which never halts), the
clock before the instruction number `n` (from 0) is `n mod 65536`.  Before the
instruction number 65536 the clock is 0 again and the block of address 0
carries the stamp 57344 of the `lw` number 57344; that instruction, a `lw` too,
leaves it with the stamp 0. -/
theorem C14_clock_wraps_at_65536 :
    (∀ n, (driver n (init wrap_image wrap_cache)).1.halt_checker = false
        ∧ (driver n (init wrap_image wrap_cache)).1.clock_cycle = n % 65536)
    ∧ (driver 65536 (init wrap_image wrap_cache)).1.clock_cycle = 0
    ∧ (driver 65536 (init wrap_image wrap_cache)).1.pc = 0
    ∧ (driver 65536 (init wrap_image wrap_cache)).1.My_cache
        = ⟨[⟨1, 1, 1, [⟨[⟨57344, 0⟩]⟩]⟩]⟩
    ∧ (driver 65537 (init wrap_image wrap_cache)).1.My_cache
        = ⟨[⟨1, 1, 1, [⟨[⟨0, 0⟩]⟩]⟩]⟩ := by
  refine ⟨fun n => ⟨(wrap_run n).2.2.2.1, (wrap_run n).2.1⟩, (wrap_run 65536).2.1,
    (wrap_run 65536).1, ?_, ?_⟩
  · rw [(wrap_run 65536).2.2.2.2.2]
    decide
  · rw [(wrap_run 65537).2.2.2.2.2]
    decide

/-- C16, as stated, fails: the configuration `65536,1,1` has positive
associativity and block size and a size divisible by `1 * 1`, and its level is
built, and reported, with 0 rows instead of `65536 / (1 * 1)`. -/
theorem C16_rows_truncated_to_16_bits :
    0 < 1 ∧ 1 * 1 ∣ 65536
    ∧ build_cache [65536, 1, 1] = some ⟨[⟨65536, 1, 1, []⟩]⟩
    ∧ report ⟨[new_level 65536 1 1]⟩ = [⟨1, 65536, 1, 1, 0⟩]
    ∧ (new_level 65536 1 1).My_rows.length ≠ 65536 / (1 * 1)
    ∧ 65536 ≠ 1 * 1 * (new_level 65536 1 1).My_rows.length := by
  decide

/-- C16, amended: row-count derivation.  For level configurations
`(size, assoc, blocksize)` with positive associativity and block size, a size and
a product `blocksize * assoc` below `2^31` (the product of the two `int` does not
overflow), a size divisible by `blocksize * assoc` and a quotient
`size / (blocksize * assoc)` below 65536, the level is built with exactly that
many rows, all empty, so that `size = blocksize * assoc * rows`, and that row
count is the one reported, for a one-level and for a two-level configuration.
For `64,2,8` the level has 4 rows. -/
theorem C16_row_count (size1 assoc1 blocksize1 size2 assoc2 blocksize2 : Nat)
    (h1 : 0 < assoc1 ∧ 0 < blocksize1 ∧ size1 < 2147483648
      ∧ blocksize1 * assoc1 < 2147483648 ∧ blocksize1 * assoc1 ∣ size1
      ∧ size1 / (blocksize1 * assoc1) < 65536)
    (h2 : 0 < assoc2 ∧ 0 < blocksize2 ∧ size2 < 2147483648
      ∧ blocksize2 * assoc2 < 2147483648 ∧ blocksize2 * assoc2 ∣ size2
      ∧ size2 / (blocksize2 * assoc2) < 65536) :
    build_cache [size1, assoc1, blocksize1]
        = some ⟨[⟨size1, assoc1, blocksize1,
            List.replicate (size1 / (blocksize1 * assoc1)) ⟨[]⟩⟩]⟩
    ∧ build_cache [size1, assoc1, blocksize1, size2, assoc2, blocksize2]
        = some ⟨[⟨size1, assoc1, blocksize1,
              List.replicate (size1 / (blocksize1 * assoc1)) ⟨[]⟩⟩,
            ⟨size2, assoc2, blocksize2,
              List.replicate (size2 / (blocksize2 * assoc2)) ⟨[]⟩⟩]⟩
    ∧ size1 = blocksize1 * assoc1 * (new_level size1 assoc1 blocksize1).My_rows.length
    ∧ size2 = blocksize2 * assoc2 * (new_level size2 assoc2 blocksize2).My_rows.length
    ∧ (∀ image n, (main (some [size1, assoc1, blocksize1]) image n).config
        = [⟨1, size1, assoc1, blocksize1, size1 / (blocksize1 * assoc1)⟩])
    ∧ (∀ image n,
        (main (some [size1, assoc1, blocksize1, size2, assoc2, blocksize2]) image n).config
          = [⟨1, size1, assoc1, blocksize1, size1 / (blocksize1 * assoc1)⟩,
             ⟨2, size2, assoc2, blocksize2, size2 / (blocksize2 * assoc2)⟩])
    ∧ (new_level 64 2 8).My_rows.length = 4
    ∧ report ⟨[new_level 64 2 8]⟩ = [⟨1, 64, 2, 8, 4⟩] := by
  obtain ⟨ha1, hb1, -, hp1, hdiv1, hfit1⟩ := h1
  obtain ⟨ha2, hb2, -, hp2, hdiv2, hfit2⟩ := h2
  have hpos1 : 0 < blocksize1 * assoc1 := Nat.mul_pos hb1 ha1
  have hpos2 : 0 < blocksize2 * assoc2 := Nat.mul_pos hb2 ha2
  have hr1 := num_of_rows_eq size1 assoc1 blocksize1 hp1 hfit1
  have hr2 := num_of_rows_eq size2 assoc2 blocksize2 hp2 hfit2
  have hc1 := build_cache_one size1 assoc1 blocksize1 hpos1 hp1
  have hc2 := build_cache_two size1 assoc1 blocksize1 size2 assoc2 blocksize2 hpos1 hp1 hpos2 hp2
  refine ⟨?_, ?_, ?_, ?_, ?_, ?_, by decide, by decide⟩
  · simp only [hc1, new_level, hr1]
  · simp only [hc2, new_level, hr1, hr2]
  · simp only [new_level, hr1, List.length_replicate]
    exact (Nat.mul_div_cancel' hdiv1).symm
  · simp only [new_level, hr2, List.length_replicate]
    exact (Nat.mul_div_cancel' hdiv2).symm
  · intro image n
    rw [main_built _ image n _ hc1]
    simp [report, new_level, hr1, List.enumFrom]
  · intro image n
    rw [main_built _ image n _ hc2]
    simp [report, new_level, hr1, hr2, List.enumFrom]

/-- C16, amended, at the configuration `64,2,8,128,4,8`. -/
theorem C16_row_count_witness :
    (0 < 2 ∧ 0 < 8 ∧ 64 < 2147483648
      ∧ 8 * 2 < 2147483648 ∧ 8 * 2 ∣ 64
      ∧ 64 / (8 * 2) < 65536) ∧ (0 < 4 ∧ 0 < 8 ∧ 128 < 2147483648
      ∧ 8 * 4 < 2147483648 ∧ 8 * 4 ∣ 128
      ∧ 128 / (8 * 4) < 65536)
    ∧ (build_cache [64, 2, 8]
        = some ⟨[⟨64, 2, 8,
            List.replicate (64 / (8 * 2)) ⟨[]⟩⟩]⟩
    ∧ build_cache [64, 2, 8, 128, 4, 8]
        = some ⟨[⟨64, 2, 8,
              List.replicate (64 / (8 * 2)) ⟨[]⟩⟩,
            ⟨128, 4, 8,
              List.replicate (128 / (8 * 4)) ⟨[]⟩⟩]⟩
    ∧ 64 = 8 * 2 * (new_level 64 2 8).My_rows.length
    ∧ 128 = 8 * 4 * (new_level 128 4 8).My_rows.length
    ∧ (∀ image n, (main (some [64, 2, 8]) image n).config
        = [⟨1, 64, 2, 8, 64 / (8 * 2)⟩])
    ∧ (∀ image n,
        (main (some [64, 2, 8, 128, 4, 8]) image n).config
          = [⟨1, 64, 2, 8, 64 / (8 * 2)⟩,
             ⟨2, 128, 4, 8, 128 / (8 * 4)⟩])
    ∧ (new_level 64 2 8).My_rows.length = 4
    ∧ report ⟨[new_level 64 2 8]⟩ = [⟨1, 64, 2, 8, 4⟩]) :=
  ⟨by decide, by decide, C16_row_count 64 2 8 128 4 8 (by decide) (by decide)⟩

/-- C18, as stated, fails at pc 65535: a `jeq` that is not taken there leaves the
pc at 0, not at `p + 1 = 65536`. -/
theorem C18_jeq_not_taken_wraps :
    jeq_state.memory (jeq_state.pc % MEM_SIZE) >>> 13 = 0b110
    ∧ jeq_state.regs (regA_index (jeq_state.memory (jeq_state.pc % MEM_SIZE)))
        ≠ jeq_state.regs (regB_index (jeq_state.memory (jeq_state.pc % MEM_SIZE)))
    ∧ (step jeq_state).1.pc = 0
    ∧ (step jeq_state).1.pc ≠ jeq_state.pc + 1 := by
  decide

/-- C18, amended: `jeq` semantics.  For a `jeq` (opcode `110`) executed at pc `p`
in a state whose register 0 holds 0, with register values `a`, `b` and
sign-extended immediate `imm7 w`: the next pc is `(p + imm + 1) mod 65536` when
`a = b` and `(p + 1) mod 65536` when `a ≠ b` (that is `p + 1` unless `p = 65535`);
registers and memory are unchanged and no line is written. -/
theorem C18_jeq_semantics (s : machine) (w a b : Nat)
    (hw : w = s.memory (s.pc % MEM_SIZE)) (hop : w >>> 13 = 0b110)
    (ha : a = s.regs (regA_index w)) (hb : b = s.regs (regB_index w))
    (h0 : s.regs 0 = 0) :
    (a = b → (step s).1.pc = (s.pc + imm7 w + 1) % 65536)
    ∧ (a ≠ b → (step s).1.pc = (s.pc + 1) % 65536)
    ∧ (a ≠ b → s.pc < 65535 → (step s).1.pc = s.pc + 1)
    ∧ (∀ i, (step s).1.regs i = s.regs i)
    ∧ (step s).1.memory = s.memory
    ∧ (step s).2 = [] := by
  subst hw ha hb
  have hex := exec_instr_jeq s hop
  refine ⟨?_, ?_, ?_, ?_, ?_, ?_⟩
  · intro hab
    simp only [step, hex, if_pos hab]
  · intro hab
    simp only [step, hex, if_neg hab]
  · intro hab hp
    simp only [step, hex, if_neg hab]
    omega
  · intro i
    simp only [step, hex, store]
    split
    · next hi => rw [hi, h0]
    · rfl
  · simp only [step, hex]
  · simp only [step, hex]

/-- C18, amended, at a `jeq $0,$1,0` executed at pc 65535 with register 1 equal
to 1. -/
theorem C18_jeq_semantics_witness :
    (0b1100000010000000 = jeq_state.memory (jeq_state.pc % MEM_SIZE)) ∧ (0b1100000010000000 >>> 13 = 0b110) ∧ (0 = jeq_state.regs (regA_index 0b1100000010000000)) ∧ (1 = jeq_state.regs (regB_index 0b1100000010000000)) ∧ (jeq_state.regs 0 = 0)
    ∧ ((0 = 1 → (step jeq_state).1.pc = (jeq_state.pc + imm7 0b1100000010000000 + 1) % 65536)
    ∧ (0 ≠ 1 → (step jeq_state).1.pc = (jeq_state.pc + 1) % 65536)
    ∧ (0 ≠ 1 → jeq_state.pc < 65535 → (step jeq_state).1.pc = jeq_state.pc + 1)
    ∧ (∀ i, (step jeq_state).1.regs i = jeq_state.regs i)
    ∧ (step jeq_state).1.memory = jeq_state.memory
    ∧ (step jeq_state).2 = []) :=
  ⟨by decide, by decide, by decide, by decide, by decide, C18_jeq_semantics jeq_state 0b1100000010000000 0 1 (by decide) (by decide) (by decide) (by decide) (by decide)⟩

/-- C19: `slti` semantics.  For a `slti` (opcode `111`) with 7-bit immediate field
`v` and register value `a`, the destination register receives 1 when `a < s` and 0
otherwise, `s` being the sign extension of `v` read as an unsigned 16-bit number
(`v` when `v < 64`, `v + 65408` otherwise); the iteration then resets register 0.
With field `0b1111111` the comparison is `a < 65535`. -/
theorem C19_slti_unsigned (s : machine) (w v a : Nat)
    (hw : w = s.memory (s.pc % MEM_SIZE)) (hop : w >>> 13 = 0b111)
    (hv : v = w &&& 0b1111111) (ha : a = s.regs (regA_index w)) :
    imm7 w = (if v < 64 then v else v + 65408)
    ∧ (exec_instr s).1.regs
        = store s.regs (regB_index w)
            (if a < (if v < 64 then v else v + 65408) then 1 else 0)
    ∧ (step s).1.regs
        = store (store s.regs (regB_index w)
            (if a < (if v < 64 then v else v + 65408) then 1 else 0)) 0 0
    ∧ (v = 0b1111111 →
        (exec_instr s).1.regs (regB_index w) = if a < 65535 then 1 else 0) := by
  subst hw hv ha
  have himm := imm7_eq (s.memory (s.pc % MEM_SIZE))
  have hex := exec_instr_slti s hop
  refine ⟨himm, ?_, ?_, ?_⟩
  · rw [hex, ← himm]
  · simp only [step, hex, ← himm]
  · intro hv
    rw [hex]
    simp only [store, if_true]
    rw [himm, hv]
    rfl

/-- C19 at `slti $1,$2,-1` with register 2 equal to 5. -/
theorem C19_slti_unsigned_witness :
    (0b1110100011111111 = slti_state.memory (slti_state.pc % MEM_SIZE)) ∧ (0b1110100011111111 >>> 13 = 0b111) ∧ (0b1111111 = 0b1110100011111111 &&& 0b1111111) ∧ (5 = slti_state.regs (regA_index 0b1110100011111111))
    ∧ (imm7 0b1110100011111111 = (if 0b1111111 < 64 then 0b1111111 else 0b1111111 + 65408)
    ∧ (exec_instr slti_state).1.regs
        = store slti_state.regs (regB_index 0b1110100011111111)
            (if 5 < (if 0b1111111 < 64 then 0b1111111 else 0b1111111 + 65408) then 1 else 0)
    ∧ (step slti_state).1.regs
        = store (store slti_state.regs (regB_index 0b1110100011111111)
            (if 5 < (if 0b1111111 < 64 then 0b1111111 else 0b1111111 + 65408) then 1 else 0)) 0 0
    ∧ (0b1111111 = 0b1111111 →
        (exec_instr slti_state).1.regs (regB_index 0b1110100011111111) = if 5 < 65535 then 1 else 0)) :=
  ⟨by decide, by decide, by decide, by decide, C19_slti_unsigned slti_state 0b1110100011111111 0b1111111 5 (by decide) (by decide) (by decide) (by decide)⟩

/-- C20: a write probe that hits in level 1 evicts nothing and inserts nothing in
level 2.  With the configuration `4,4,1,2,2,1`, after `lw 10; lw 20; lw 21` level 1
holds the tags 10, 20, 21 and the full row of level 2 the tags 20 and 21.  The
store to address 10 at clock 3 hits in level 1 and misses in level 2, and leaves
the row of level 2 as it was: the block of least recency (tag 20) is not removed
and no block of tag 10 is appended.  A store to address 30, which misses in
level 1, does evict the tag 20 from level 2 and appends the new block. -/
theorem C20_store_hit_level1_no_eviction_level2 :
    (driver 3 (init evict_image evict_cache)).1.My_cache
        = ⟨[⟨4, 4, 1, [⟨[⟨0, 10⟩, ⟨1, 20⟩, ⟨2, 21⟩]⟩]⟩, ⟨2, 2, 1, [⟨[⟨1, 20⟩, ⟨2, 21⟩]⟩]⟩]⟩
    ∧ (driver 3 (init evict_image evict_cache)).1.pc = 3
    ∧ (driver 3 (init evict_image evict_cache)).1.clock_cycle = 3
    ∧ (step (driver 3 (init evict_image evict_cache)).1).2
        = [⟨1, status.SW, 3, 10, 0⟩, ⟨2, status.SW, 3, 10, 0⟩]
    ∧ (step (driver 3 (init evict_image evict_cache)).1).1.My_cache
        = ⟨[⟨4, 4, 1, [⟨[⟨3, 10⟩, ⟨1, 20⟩, ⟨2, 21⟩]⟩]⟩, ⟨2, 2, 1, [⟨[⟨1, 20⟩, ⟨2, 21⟩]⟩]⟩]⟩
    ∧ (write_probe (driver 3 (init evict_image evict_cache)).1.My_cache 3 30 3).1
        = ⟨[⟨4, 4, 1, [⟨[⟨0, 10⟩, ⟨1, 20⟩, ⟨2, 21⟩, ⟨3, 30⟩]⟩]⟩,
            ⟨2, 2, 1, [⟨[⟨2, 21⟩, ⟨3, 30⟩]⟩]⟩]⟩ := by
  decide

/-- C22: the cache never influences the processor state.  For every memory image,
every two caches (in particular the caches of one or two levels, each level with
at least one row and associativity at least 1, that `main` builds) and every `n`,
the pc, the registers, the memory, the halt flag and the clock after at most `n`
iterations of the loop (it stops at the halt) are the same under both caches; so
are they, and the exit code, for two runs of `main` whose configurations build
these caches.  Only the cache and the log lines depend on the cache. -/
theorem C22_cache_independent (image : Nat → Nat) (c1 c2 : cache) (n : Nat) :
    (driver n (init image c1)).1.pc = (driver n (init image c2)).1.pc
    ∧ (driver n (init image c1)).1.regs = (driver n (init image c2)).1.regs
    ∧ (driver n (init image c1)).1.memory = (driver n (init image c2)).1.memory
    ∧ (driver n (init image c1)).1.halt_checker = (driver n (init image c2)).1.halt_checker
    ∧ (driver n (init image c1)).1.clock_cycle = (driver n (init image c2)).1.clock_cycle
    ∧ ∀ parts1 parts2, build_cache parts1 = some c1 → build_cache parts2 = some c2 →
        (main (some parts1) image n).final.pc = (main (some parts2) image n).final.pc
        ∧ (main (some parts1) image n).final.regs = (main (some parts2) image n).final.regs
        ∧ (main (some parts1) image n).final.memory
            = (main (some parts2) image n).final.memory
        ∧ (main (some parts1) image n).final.halt_checker
            = (main (some parts2) image n).final.halt_checker
        ∧ (main (some parts1) image n).exit_code = (main (some parts2) image n).exit_code := by
  obtain ⟨hm, hp, hr, hc, hh⟩ :=
    driver_same_processor n (init image c1) (init image c2) ⟨rfl, rfl, rfl, rfl, rfl⟩
  refine ⟨hp, hr, hm, hh, hc, ?_⟩
  intro parts1 parts2 hb1 hb2
  rw [main_built parts1 image n c1 hb1, main_built parts2 image n c2 hb2]
  exact ⟨hp, hr, hm, hh, by simp only [hh]⟩

/-- C24: distinct-tag invariant.  From a hierarchy whose rows are all empty, after
any sequence of read and write probes no row of any level holds two blocks with
the same tag: the tags of a row are pairwise distinct, so two blocks of a row with
the same tag are at the same index. -/
theorem C24_distinct_tags (c : cache) (accesses : List access)
    (hempty : ∀ l ∈ c.My_levels, ∀ r ∈ l.My_rows, r.My_blocks = []) :
    ∀ l ∈ (probes c accesses).My_levels, ∀ r ∈ l.My_rows,
      (r.My_blocks.map block.tag).Nodup
      ∧ ∀ (i j : Nat) (b b' : block), r.My_blocks[i]? = some b → r.My_blocks[j]? = some b' →
          b.tag = b'.tag → i = j := by
  have h0 : ∀ l ∈ c.My_levels, distinct_tags l := by
    intro l hl r hr
    rw [hempty l hl r hr]
    exact List.nodup_nil
  intro l hl r hr
  have hn := probes_distinct c accesses h0 l hl r hr
  exact ⟨hn, fun i j b b' hi hj ht => nodup_tags_index _ hn i j b b' hi hj ht⟩

/-- C24 at the hierarchy `2,2,1,1,1,1` after two reads and one write. -/
theorem C24_distinct_tags_witness :
    (∀ l ∈ store_cache.My_levels, ∀ r ∈ l.My_rows, r.My_blocks = [])
    ∧ (∀ l ∈ (probes store_cache [access.lw 0 10 0, access.lw 1 11 1, access.sw 2 10 2]).My_levels, ∀ r ∈ l.My_rows,
      (r.My_blocks.map block.tag).Nodup
      ∧ ∀ (i j : Nat) (b b' : block), r.My_blocks[i]? = some b → r.My_blocks[j]? = some b' →
          b.tag = b'.tag → i = j) :=
  ⟨by decide, C24_distinct_tags store_cache [access.lw 0 10 0, access.lw 1 11 1, access.sw 2 10 2] (by decide)⟩

/-- C25: index safety of the cache walk.  For every hierarchy whose levels each
have at least one row and associativity at least 1, in a state where no row holds
more blocks than the associativity, for every address and clock: at every level
the row index is below the number of rows, and when the row is full the eviction
index left by the scan is an index of the row.  Hence the read walk and the write
walk with their index checks made explicit never fail: they return what the walks
return, and the cache they leave satisfies the same conditions. -/
theorem C25_index_safety (c : cache) (pc sum clock_cycle : Nat)
    (hlevels : ∀ l ∈ c.My_levels, 1 ≤ l.My_rows.length ∧ 1 ≤ l.associativity)
    (hcap : ∀ l ∈ c.My_levels, ∀ r ∈ l.My_rows, r.My_blocks.length ≤ l.associativity) :
    (∀ l ∈ c.My_levels, row_index l sum < l.My_rows.length
        ∧ ((blocks_at l (row_index l sum)).length = l.associativity →
            (scan (tag_of l sum) clock_cycle (blocks_at l (row_index l sum))
                0 UINT64_MAX 0).LRU < (blocks_at l (row_index l sum)).length))
    ∧ lw_walk_checked pc sum clock_cycle c.My_levels 0
        = some (lw_walk pc sum clock_cycle c.My_levels 0)
    ∧ sw_walk_checked pc sum clock_cycle c.My_levels 0 false
        = some (sw_walk pc sum clock_cycle c.My_levels 0 false)
    ∧ (∀ l ∈ (read_probe c pc sum clock_cycle).1.My_levels,
        1 ≤ l.My_rows.length ∧ 1 ≤ l.associativity
          ∧ ∀ r ∈ l.My_rows, r.My_blocks.length ≤ l.associativity)
    ∧ (∀ l ∈ (write_probe c pc sum clock_cycle).1.My_levels,
        1 ≤ l.My_rows.length ∧ 1 ≤ l.associativity
          ∧ ∀ r ∈ l.My_rows, r.My_blocks.length ≤ l.associativity) := by
  have hw : ∀ l ∈ c.My_levels, walkable l :=
    fun l hl => ⟨(hlevels l hl).1, (hlevels l hl).2, hcap l hl⟩
  refine ⟨?_, lw_walk_checked_eq pc sum clock_cycle _ 0 hw,
    sw_walk_checked_eq pc sum clock_cycle _ 0 false hw, ?_, ?_⟩
  · intro l hl
    refine ⟨row_index_lt l sum (hlevels l hl).1, ?_⟩
    intro hfull
    exact scan_LRU_lt _ _ _ _ (by have := (hlevels l hl).2; omega)
  · intro l hl
    have h := lw_walk_walkable pc sum clock_cycle c.My_levels 0 hw l hl
    exact ⟨h.1, h.2.1, h.2.2⟩
  · intro l hl
    have h := sw_walk_walkable pc sum clock_cycle c.My_levels 0 false hw l hl
    exact ⟨h.1, h.2.1, h.2.2⟩

/-- C25 at the full rows of `hit_level1, hit_level2`, for address 12. -/
theorem C25_index_safety_witness :
    (∀ l ∈ full_cache.My_levels, 1 ≤ l.My_rows.length ∧ 1 ≤ l.associativity) ∧ (∀ l ∈ full_cache.My_levels, ∀ r ∈ l.My_rows, r.My_blocks.length ≤ l.associativity)
    ∧ ((∀ l ∈ full_cache.My_levels, row_index l 12 < l.My_rows.length
        ∧ ((blocks_at l (row_index l 12)).length = l.associativity →
            (scan (tag_of l 12) 2 (blocks_at l (row_index l 12))
                0 UINT64_MAX 0).LRU < (blocks_at l (row_index l 12)).length))
    ∧ lw_walk_checked 2 12 2 full_cache.My_levels 0
        = some (lw_walk 2 12 2 full_cache.My_levels 0)
    ∧ sw_walk_checked 2 12 2 full_cache.My_levels 0 false
        = some (sw_walk 2 12 2 full_cache.My_levels 0 false)
    ∧ (∀ l ∈ (read_probe full_cache 2 12 2).1.My_levels,
        1 ≤ l.My_rows.length ∧ 1 ≤ l.associativity
          ∧ ∀ r ∈ l.My_rows, r.My_blocks.length ≤ l.associativity)
    ∧ (∀ l ∈ (write_probe full_cache 2 12 2).1.My_levels,
        1 ≤ l.My_rows.length ∧ 1 ≤ l.associativity
          ∧ ∀ r ∈ l.My_rows, r.My_blocks.length ≤ l.associativity)) :=
  ⟨by decide, by decide, C25_index_safety full_cache 2 12 2 (by decide) (by decide)⟩

end Simcache
